import Mathlib

/-!
# Verification of the Legato Data Hub snapshot and data-sample subsystems

This development gives a shallow embedding, in Lean 4, of the parts of the
mangOH Data Hub that concern data samples (`dataSample.c`), the snapshot
engine (`snapshot.c`), its JSON formatter (`jsonFormatter.c`), and the route
graph contract of `res_SetSource` (`resource.h`).

Conventions used throughout:
* C byte strings are `List Nat` of byte values (`char` is modelled as an
  unsigned byte, as on the ARM targets this code ships on); the terminating
  NUL is not part of the list — the list ends where the C string ends.
* `double` timestamps are modelled as `Rat`; only their ordering and
  propagation matter to the properties below, never their arithmetic.
  Where the C code prints a number with `snprintf` (`%lf`), the printer is
  taken as an abstract parameter.
* `le_result_t` is the `LeResult` enumeration below.
-/

namespace DHub

/-- The `le_result_t` codes used by the Data Hub modules under study. -/
inductive LeResult where
  | ok
  | overflow
  | badParameter
  | formatError
  | duplicate
  | notFound
  | closed
  | fault
  | busy
  | outOfRange
  | unsupported
  | notImplemented
deriving DecidableEq, Repr

/-- `MAX_PASSES` from `snapshot.c`: upper limit on the number of passes
through the tree that can be requested by a formatter. -/
def MAX_PASSES : Nat := 10

/-!
## C1: the pass-control loop (`TreeEnd` / `StartPass`, snapshot.c)

`snapshotTreeEnd scanAfter passes` models the loop formed by the `TreeEnd`
state handler and `StartPass`:

* `passes` is `Snapshot.passes`, the number of passes started so far
  (`StartPass` increments it, so at a `TreeEnd` it counts completed passes);
* `scanAfter k` is the value of the formatter's `scan` flag at the `TreeEnd`
  that follows pass `k` (the formatter updates the flag from its `endTree`
  callback, which runs just before `TreeEnd`).

`TreeEnd` either starts another pass (when `scan` is set and fewer than
`MAX_PASSES` passes have run), or ends the snapshot with `LE_OUT_OF_RANGE`
(when `passes >= MAX_PASSES`) or `LE_OK`.  The returned pair is the final
pass count and the status handed to `snapshot_End`.
-/
def snapshotTreeEnd (scanAfter : Nat → Bool) (passes : Nat) : Nat × LeResult :=
  if scanAfter passes = true ∧ passes < MAX_PASSES then
    snapshotTreeEnd scanAfter (passes + 1)
  else if MAX_PASSES ≤ passes then
    (passes, .outOfRange)
  else
    (passes, .ok)
termination_by MAX_PASSES - passes
decreasing_by omega

/-- The pass-loop entry from `query_TakeSnapshot`: the first pass is started
only if the formatter's initial `scan` flag is set (otherwise the snapshot
ends with `LE_UNSUPPORTED`); `StartPass` makes `passes = 1` before the first
`TreeEnd`. -/
def snapshotPassLoop (scanInit : Bool) (scanAfter : Nat → Bool) : Nat × LeResult :=
  if scanInit then snapshotTreeEnd scanAfter 1 else (0, .unsupported)

/-- If the formatter's scan flag is still set after every pass up to the 9th,
the loop runs on to the 10th pass and ends with `OutOfRange` — regardless of
the scan flag's value at the 10th `TreeEnd`. -/
theorem snapshotTreeEnd_runs_to_limit (f : Nat → Bool) :
    ∀ n p, MAX_PASSES - p = n → 1 ≤ p → p ≤ MAX_PASSES →
      (∀ k, p ≤ k → k ≤ 9 → f k = true) →
      snapshotTreeEnd f p = (10, .outOfRange) := by
  intro n
  induction n with
  | zero =>
    intro p hn _ hp10 _
    have hp : p = 10 := by simp only [MAX_PASSES] at hn hp10; omega
    subst hp
    rw [snapshotTreeEnd]
    simp [MAX_PASSES]
  | succ n ih =>
    intro p hn hp1 _ hall
    have hlt : p < MAX_PASSES := by omega
    have hfp : f p = true := hall p le_rfl (by simp only [MAX_PASSES] at hlt; omega)
    rw [snapshotTreeEnd]
    rw [if_pos ⟨hfp, hlt⟩]
    exact ih (p + 1) (by omega) (by omega) (by omega)
      (fun k hk1 hk9 => hall k (by omega) hk9)

/-- If the scan flag goes false after pass `k ≤ 9` (and was true at every
earlier `TreeEnd` from pass `p` on), the loop stops after pass `k` with
`Ok`. -/
theorem snapshotTreeEnd_stops (f : Nat → Bool) :
    ∀ n p k, MAX_PASSES - p = n → p ≤ k → k ≤ 9 → f k = false →
      (∀ j, p ≤ j → j < k → f j = true) →
      snapshotTreeEnd f p = (k, .ok) := by
  intro n
  induction n with
  | zero =>
    intro p k hn hpk hk9 _ _
    simp only [MAX_PASSES] at hn
    omega
  | succ n ih =>
    intro p k hn hpk hk9 hfk hpre
    rcases Nat.lt_or_ge p k with hlt | hge
    · have hfp : f p = true := hpre p le_rfl hlt
      rw [snapshotTreeEnd]
      rw [if_pos ⟨hfp, by simp only [MAX_PASSES]; omega⟩]
      exact ih (p + 1) k (by omega) (by omega) hk9 hfk
        (fun j hj1 hj2 => hpre j (by omega) hj2)
    · have hpk' : p = k := by omega
      subst hpk'
      rw [snapshotTreeEnd]
      have hcond : ¬(f p = true ∧ p < MAX_PASSES) := by
        intro h
        rw [h.1] at hfk
        cases hfk
      rw [if_neg hcond, if_neg (by simp only [MAX_PASSES]; omega)]

/-- C1 (amended).  For every snapshot run: the engine starts another tree
pass when the formatter's scan flag is true at the end of a pass and fewer
than `MAX_PASSES` (10) passes have been run; a formatter that perpetually
requests another pass is terminated after exactly 10 passes; and the
snapshot ends with status `OutOfRange` if and only if the formatter
requested at least 10 passes (that is, its scan flag was still set at the
end of each of the first nine passes) — equivalently, iff 10 passes were
run. -/
theorem c1_pass_limit (f : Nat → Bool) :
    (∀ p, f p = true → p < MAX_PASSES →
      snapshotTreeEnd f p = snapshotTreeEnd f (p + 1)) ∧
    snapshotTreeEnd (fun _ => true) 1 = (10, .outOfRange) ∧
    ((snapshotTreeEnd f 1).2 = .outOfRange ↔ ∀ k, 1 ≤ k → k ≤ 9 → f k = true) := by
  refine ⟨?_, ?_, ?_, ?_⟩
  · intro p hfp hlt
    rw [snapshotTreeEnd, if_pos ⟨hfp, hlt⟩]
  · exact snapshotTreeEnd_runs_to_limit (fun _ => true) 9 1 rfl le_rfl
      (by simp [MAX_PASSES]) (fun _ _ _ => rfl)
  · intro hoor
    by_contra hnot
    push_neg at hnot
    have hex : ∃ k, 1 ≤ k ∧ k ≤ 9 ∧ f k = false := by
      obtain ⟨k, hk1, hk9, hk⟩ := hnot
      exact ⟨k, hk1, hk9, by revert hk; cases f k <;> simp⟩
    classical
    obtain ⟨k0, hk0, hmin⟩ := Nat.findX hex
    obtain ⟨hk01, hk09, hk0f⟩ := hk0
    have hstop : snapshotTreeEnd f 1 = (k0, .ok) := by
      refine snapshotTreeEnd_stops f 9 1 k0 rfl hk01 hk09 hk0f ?_
      intro j hj1 hjk
      by_contra hfj
      have hPj : 1 ≤ j ∧ j ≤ 9 ∧ f j = false :=
        ⟨hj1, by omega, by revert hfj; cases f j <;> simp⟩
      exact absurd hPj (hmin j hjk)
    rw [hstop] at hoor
    cases hoor
  · intro hall
    have := snapshotTreeEnd_runs_to_limit f 9 1 rfl le_rfl (by simp [MAX_PASSES]) hall
    rw [this]

/-- C1 witness: `c1_pass_limit` applied to the perpetually scanning
formatter. -/
theorem c1_pass_limit_witness :
    snapshotTreeEnd (fun _ => true) 2 = snapshotTreeEnd (fun _ => true) 3 ∧
    ((snapshotTreeEnd (fun _ => true) 1).2 = .outOfRange ↔
      ∀ k, 1 ≤ k → k ≤ 9 → (fun _ => true) k = true) := by
  have h := c1_pass_limit (fun _ => true)
  exact ⟨h.1 2 rfl (by simp [MAX_PASSES]), h.2.2⟩

/-- C1 counterexample to the claim as stated.  A formatter that requests
exactly 10 passes — its scan flag is true at the end of passes 1 through 9
and false at the end of pass 10, so it never asks for an 11th pass and so
never requests *more than* `MAX_PASSES` passes — still ends with
`OutOfRange`, because `TreeEnd` checks `passes >= MAX_PASSES` before
checking the scan flag for the `Ok` exit. -/
theorem c1_counterexample :
    snapshotTreeEnd (fun k => decide (k < 10)) 1 = (10, .outOfRange) ∧
    (fun k => decide (k < 10)) 10 = false ∧
    ¬ (∀ k, 1 ≤ k → k ≤ 10 → (fun k => decide (k < 10)) k = true) := by
  refine ⟨?_, by simp, ?_⟩
  · exact snapshotTreeEnd_runs_to_limit (fun k => decide (k < 10)) 9 1 rfl le_rfl
      (by simp [MAX_PASSES]) (fun k hk1 hk9 => by simp; omega)
  · intro h
    have := h 10 (by omega) le_rfl
    simp at this

/-!
## C2 and C7: `query_TakeSnapshot` entry and `snapshot_End` cleanup

`HubState` collects the state read and written by `query_TakeSnapshot` and
`snapshot_End` in `snapshot.c`: the `IsRunning` latch, the update gate of the
resource tree (`resTree_StartUpdate` / `resTree_EndUpdate`, which pause
structural mutation while a snapshot runs), and the fields of the global
`Snapshot` structure these functions touch.  `snapCallback` is the
`Snapshot.callback`/`Snapshot.context` pair, abstracted to an identity tag
for the user callback it names (`0` is the `NULL` callback of the
zero-initialised structure).  Two instrumentation fields record externally
observable actions: `closedFds` lists the file descriptors passed to
`le_fd_Close`, in order, and `queued` lists the `InvokeResultCallback`
invocations queued on the event loop, each recording only the status
argument — exactly what the C queues; *which* user callback a queued
invocation will fire is decided only when the event loop dispatches it,
because `InvokeResultCallback` reads the global `Snapshot.callback` at that
moment (see `invokeResultCallback`).  `formatterCloseCount` counts
invocations of the formatter's `close` callback.
-/

structure HubState where
  isRunning : Bool
  updatesDeferred : Bool
  formatterPresent : Bool
  formatterCloseCount : Nat
  sink : Int
  source : Int
  snapFlags : Nat
  snapSince : Rat
  snapCallback : Nat
  closedFds : List Int
  queued : List LeResult
deriving DecidableEq, Repr

/-- Boot state: the static variables of `snapshot.c` are zero-initialised. -/
def freshHub : HubState :=
  { isRunning := false, updatesDeferred := false, formatterPresent := false
    formatterCloseCount := 0, sink := 0, source := 0, snapFlags := 0
    snapSince := 0, snapCallback := 0, closedFds := [], queued := [] }

/-- `InvokeResultCallback` from `snapshot.c`, as dispatched by the event
loop: it reads the global `Snapshot.callback` *at dispatch time* and, if it
is non-`NULL`, invokes that callback (with `Snapshot.context`) and the
status that was captured when the invocation was queued.  The result is the
identity of the user callback actually fired, paired with the status it
receives, or `none` when `Snapshot.callback` is `NULL`. -/
def invokeResultCallback (st : HubState) (status : LeResult) :
    Option (Nat × LeResult) :=
  if st.snapCallback = 0 then none else some (st.snapCallback, status)

/-- `snapshot_End` from `snapshot.c`: close the formatter if one is set,
close the sink and source descriptors if they are valid, resume resource
tree updates, clear `IsRunning`, and queue the result callback with the
given status. -/
def snapshot_End (status : LeResult) (st : HubState) : HubState :=
  let st1 := if st.formatterPresent then
      { st with formatterCloseCount := st.formatterCloseCount + 1
                formatterPresent := false }
    else st
  let st2 := if 0 ≤ st1.sink then
      { st1 with closedFds := st1.closedFds ++ [st1.sink] }
    else st1
  let st3 := if 0 ≤ st2.source then
      { st2 with closedFds := st2.closedFds ++ [st2.source] }
    else st2
  { st3 with updatesDeferred := false, isRunning := false
             queued := st3.queued ++ [status] }

/-- `QUERY_SNAPSHOT_FORMAT_JSON` from `query.api`. -/
def QUERY_SNAPSHOT_FORMAT_JSON : Nat := 0

/-- Environment a `query_TakeSnapshot` call runs in: whether pipe creation
succeeds and, if so, which descriptors it yields; whether
`resTree_FindEntryAtAbsolutePath` finds the requested root. -/
structure SnapEnv where
  pipeOk : Bool
  sinkFd : Int
  sourceFd : Int
  rootFound : Bool
deriving DecidableEq, Repr

/-- `query_TakeSnapshot` from `snapshot.c`, up to the point where the first
pass is started (the walk itself is modelled separately).  Returns the state
when the call returns together with the value stored in `*snapshotStream`
(initialised to `-1` on entry).

The busy check comes first: if a snapshot is already running, an
`InvokeResultCallback` invocation is queued with status `LE_BUSY` and the
function returns; the caller's `callback` parameter is not stored anywhere
on this path (`Snapshot.callback` keeps naming the in-progress snapshot's
requester).  Otherwise the function latches `IsRunning`, pauses tree
updates, zeroes the `Snapshot` structure and stores the caller's callback
in it, creates the pipe, selects the formatter (only the JSON formatter
exists; any other format yields `LE_NOT_IMPLEMENTED` with no formatter),
looks up the root, then records flags/since, publishes the source descriptor
and starts the first pass (the JSON formatter always has `scan = true`, so
the `LE_UNSUPPORTED` branch is unreachable).  Every failure path runs
`snapshot_End` with the corresponding status.  `callback` is the identity
tag of the caller's completion callback/context pair (non-zero: the C
asserts `callback != NULL`). -/
def query_TakeSnapshot (env : SnapEnv) (format flags : Nat) (since : Rat)
    (callback : Nat) (st : HubState) : HubState × Int :=
  if st.isRunning then
    ({ st with queued := st.queued ++ [.busy] }, -1)
  else
    let st1 : HubState :=
      { st with isRunning := true, updatesDeferred := true
                formatterPresent := false, snapFlags := 0, snapSince := 0
                snapCallback := callback
                sink := if env.pipeOk then env.sinkFd else -1
                source := if env.pipeOk then env.sourceFd else -1 }
    if st1.sink < 0 ∨ st1.source < 0 then
      (snapshot_End .closed st1, -1)
    else if format ≠ QUERY_SNAPSHOT_FORMAT_JSON then
      (snapshot_End .notImplemented st1, -1)
    else
      let st2 := { st1 with formatterPresent := true }
      if ¬ env.rootFound then
        (snapshot_End .notFound st2, -1)
      else
        ({ st2 with snapFlags := flags, snapSince := since }, st2.source)

/-- C2 (as the code actually behaves).  If `query_TakeSnapshot` is invoked
while another snapshot is in progress, the returned stream descriptor is
`-1`, an `InvokeResultCallback` invocation is queued with status `Busy`, and
every other component of the state is left unchanged — *including*
`Snapshot.callback`, which still names the in-progress snapshot's
requester, because the busy path never stores the new caller's `callback`
parameter (`cb` appears nowhere in the result).  Consequently, when the
event loop dispatches the queued invocation, `InvokeResultCallback` reads
the global `Snapshot.callback` and delivers `Busy` to the in-progress
snapshot's requester, not to the busy caller: concretely, a caller with
callback `1` arriving while the snapshot owned by callback `2` runs causes
callback `2` — and never callback `1` — to be invoked with `Busy`,
refuting the claim that the (busy caller's) completion callback is invoked
with `Busy`. -/
theorem c2_busy_misdirected (env : SnapEnv) (format flags : Nat) (since : Rat)
    (cb : Nat) (st : HubState) :
    (query_TakeSnapshot env format flags since cb { st with isRunning := true } =
      ({ st with isRunning := true, queued := st.queued ++ [.busy] }, -1)) ∧
    (invokeResultCallback
        (query_TakeSnapshot env format flags since cb
          { st with isRunning := true }).1 .busy =
      if st.snapCallback = 0 then none else some (st.snapCallback, .busy)) ∧
    (invokeResultCallback
        (query_TakeSnapshot ⟨true, 5, 6, true⟩ 0 0 0 1
          { freshHub with isRunning := true, snapCallback := 2 }).1 .busy =
      some (2, .busy)) ∧
    (invokeResultCallback
        (query_TakeSnapshot ⟨true, 5, 6, true⟩ 0 0 0 1
          { freshHub with isRunning := true, snapCallback := 2 }).1 .busy ≠
      some (1, .busy)) := by
  have hb : query_TakeSnapshot env format flags since cb
      { st with isRunning := true } =
      ({ st with isRunning := true, queued := st.queued ++ [.busy] }, -1) := by
    rw [query_TakeSnapshot, if_pos (by simp)]
  refine ⟨hb, ?_, by decide, by decide⟩
  rw [hb]
  rfl

/-- C7 (amended).  `snapshot_End`, which runs on every termination of a
snapshot request (normal completion, I/O error, pass-limit exhaustion, or
setup failure), invokes the formatter's close callback if a formatter was
set up, closes whichever of the two pipe endpoints are open, re-enables
structural mutation of the resource tree, and queues (asynchronously
invokes) the caller's completion callback exactly once with the terminating
status. -/
theorem c7_snapshot_End_cleanup (st : HubState) (status : LeResult) :
    ((snapshot_End status st).formatterCloseCount =
        st.formatterCloseCount + (if st.formatterPresent then 1 else 0)) ∧
    (0 ≤ st.sink → st.sink ∈ (snapshot_End status st).closedFds) ∧
    (0 ≤ st.source → st.source ∈ (snapshot_End status st).closedFds) ∧
    (snapshot_End status st).updatesDeferred = false ∧
    (snapshot_End status st).isRunning = false ∧
    (snapshot_End status st).queued = st.queued ++ [status] := by
  unfold snapshot_End
  cases hf : st.formatterPresent <;>
    by_cases hs : (0 : Int) ≤ st.sink <;>
    by_cases hr : (0 : Int) ≤ st.source <;>
    simp [hf, hs, hr]

/-- C7 witness: a completed snapshot's termination with `Ok` closes the
formatter, both descriptors 3 and 4, resumes updates and reports once. -/
theorem c7_snapshot_End_cleanup_witness :
    ((snapshot_End .ok { freshHub with isRunning := true
                                       updatesDeferred := true
                                       formatterPresent := true
                                       sink := 3, source := 4 }).formatterCloseCount = 0 + 1) ∧
    (3 : Int) ∈ (snapshot_End .ok { freshHub with isRunning := true
                                                  updatesDeferred := true
                                                  formatterPresent := true
                                                  sink := 3, source := 4 }).closedFds ∧
    (snapshot_End .ok { freshHub with isRunning := true
                                      updatesDeferred := true
                                      formatterPresent := true
                                      sink := 3, source := 4 }).queued = [] ++ [.ok] := by
  have h := c7_snapshot_End_cleanup
    { freshHub with isRunning := true, updatesDeferred := true
                    formatterPresent := true, sink := 3, source := 4 } .ok
  exact ⟨by simpa [freshHub] using h.1, by simpa [freshHub] using h.2.1 (by simp),
    by simpa [freshHub] using h.2.2.2.2.2⟩

/-- C7 counterexample to the claim as stated.  A setup failure in which pipe
creation fails is a termination of a snapshot request (the completion
callback is queued with `Closed`), yet the formatter's close callback is
never invoked and no pipe endpoint is closed — there is nothing to close,
because the failure occurred before the formatter or the pipe existed. -/
theorem c7_counterexample :
    ((query_TakeSnapshot ⟨false, 3, 4, true⟩ 0 0 0 1 freshHub).1.queued = [.closed]) ∧
    ((query_TakeSnapshot ⟨false, 3, 4, true⟩ 0 0 0 1 freshHub).1.formatterCloseCount = 0) ∧
    ((query_TakeSnapshot ⟨false, 3, 4, true⟩ 0 0 0 1 freshHub).1.closedFds = []) := by
  decide

/-!
## C3 and C4: JSON string escaping (`dataSample.c`)

`dataSample_StringToJson` copies a UTF-8 C string into a destination buffer,
escaping characters as it goes.  The destination buffer is modelled
explicitly as a byte list of length `destSize` (initially zero-filled), with
`listWrite` performing the in-place stores, because the C code's stores and
its index arithmetic do not always agree (see `c3_escape_truncation`).
-/

/-- `le_utf8_NumBytesInChar` from the Legato framework (not part of this
repository): the byte length of a UTF-8 character from its lead byte, or 0
for an invalid lead byte. -/
def numBytesInChar (b : Nat) : Nat :=
  if b ≤ 0x7F then 1
  else if b ≤ 0xBF then 0
  else if b ≤ 0xDF then 2
  else if b ≤ 0xEF then 3
  else if b ≤ 0xF7 then 4
  else 0

/-- `ComputeEscapedCharLength` from `dataSample.c`: the length the function
*reports* for the escaped form of a character (`char` taken unsigned). -/
def computeEscapedCharLength (b : Nat) : Nat :=
  if 31 < b ∧ b ≠ 34 ∧ b ≠ 92 then numBytesInChar b
  else if b = 92 ∨ b = 34 ∨ b = 8 ∨ b = 12 ∨ b = 10 ∨ b = 13 ∨ b = 9 then 2
  else 5

/-- Lowercase hex digit byte, as produced by `snprintf` with `%x`. -/
def hexDigit (n : Nat) : Nat := if n < 10 then 48 + n else 87 + n

/-- `EscapeCharacter` from `dataSample.c`.  Returns the bytes the function
stores (in order, starting at the output cursor) and its return value (the
number of *input* bytes consumed).  An unescaped character is copied with
`strncpy` over its full UTF-8 length (`rest` holds the bytes following `b`).
In the `\uXXXX` branch, `snprintf(&escapedChar[1], 6, "u%04x", b)` stores
five characters plus a terminating NUL, so together with the leading
backslash the function stores seven bytes. -/
def escapeCharacter (b : Nat) (rest : List Nat) : List Nat × Nat :=
  if 31 < b ∧ b ≠ 34 ∧ b ≠ 92 then
    (b :: rest.take (numBytesInChar b - 1), numBytesInChar b)
  else if b = 92 then ([92, 92], 1)
  else if b = 34 then ([92, 34], 1)
  else if b = 8 then ([92, 98], 1)
  else if b = 12 then ([92, 102], 1)
  else if b = 10 then ([92, 110], 1)
  else if b = 13 then ([92, 114], 1)
  else if b = 9 then ([92, 116], 1)
  else ([92, 117, 48, 48, hexDigit (b / 16), hexDigit (b % 16), 0], 1)

/-- Store `bs` into `dest` starting at index `pos` (stores past the end of
`dest` are dropped; in the C code such a store would be a buffer overrun). -/
def listWrite (dest : List Nat) (pos : Nat) : List Nat → List Nat
  | [] => dest
  | b :: bs => listWrite (dest.set pos b) (pos + 1) bs

/-- The copy loop of `dataSample_StringToJson`.  `src` is the remaining
input (the C loop stops at the NUL terminator, i.e. at the end of the list),
`dest` the destination buffer, `j` the output index.  Returns the final
buffer, the reported byte count `*numBytesPtr`, and the result code.  Note
that the output cursor advances by `computeEscapedCharLength` even though
`escapeCharacter` may store more bytes than that. -/
def stringToJsonLoop (destSize : Nat) (src dest : List Nat) (j : Nat) :
    List Nat × Nat × LeResult :=
  match src with
  | [] => (listWrite dest j [0], j, .ok)
  | b :: rest =>
    let escLen := computeEscapedCharLength b
    if escLen = 0 then (listWrite dest 0 [0], 0, .ok)
    else if destSize ≤ escLen + j then (listWrite dest j [0], j, .overflow)
    else
      let ec := escapeCharacter b rest
      stringToJsonLoop destSize (rest.drop (ec.2 - 1)) (listWrite dest j ec.1)
        (j + escLen)
termination_by src.length
decreasing_by simp only [List.length_cons, List.length_drop]; omega

/-- `dataSample_StringToJson` from `dataSample.c`, on a zero-filled
destination buffer of `destSize` bytes (the code asserts `destSize > 0`). -/
def dataSample_StringToJson (src : List Nat) (destSize : Nat) :
    List Nat × Nat × LeResult :=
  stringToJsonLoop destSize src (List.replicate destSize 0) 0

/-- C3 (bug evaluation).  On input `"\x01A"` (bytes 1, 65) with a roomy
64-byte buffer, `dataSample_StringToJson` reports success with 6 bytes, and
those 6 bytes are `\u000A` — not the `\u0001A` the claim (and the function's
own RFC 7159 comment) require.  The root cause is visible in the last two
conjuncts: `ComputeEscapedCharLength` reports 5 bytes for a `\u00XX` escape,
but `EscapeCharacter` stores 6 visible bytes (plus a NUL), so the final hex
digit is overwritten by the next character. -/
theorem c3_escape_truncation :
    (dataSample_StringToJson [1, 65] 64).2 = (6, .ok) ∧
    (dataSample_StringToJson [1, 65] 64).1.take 6 = [92, 117, 48, 48, 48, 65] ∧
    computeEscapedCharLength 1 = 5 ∧
    (escapeCharacter 1 [65]).1 = [92, 117, 48, 48, 48, 49, 0] := by
  refine ⟨?_, ?_, by decide, by decide⟩ <;>
    simp [dataSample_StringToJson, stringToJsonLoop, computeEscapedCharLength,
      numBytesInChar, escapeCharacter, hexDigit, listWrite]

/-!
### Buffer-store lemmas

Helper facts about `listWrite` used to read the contents of the destination
buffer back out of the store-level model.
-/

theorem listWrite_length (bs : List Nat) :
    ∀ dest p, (listWrite dest p bs).length = dest.length := by
  induction bs with
  | nil => intro dest p; rfl
  | cons b bs ih =>
    intro dest p
    simp only [listWrite, ih, List.length_set]

theorem take_set_of_le (l : List Nat) :
    ∀ p q b, q ≤ p → (l.set p b).take q = l.take q := by
  induction l with
  | nil => intro p q b _; simp
  | cons x xs ih =>
    intro p q b hq
    cases p with
    | zero =>
      have hq0 : q = 0 := Nat.le_zero.mp hq
      subst hq0; simp
    | succ p =>
      cases q with
      | zero => simp
      | succ q => simp [List.set, List.take, ih p q b (Nat.le_of_succ_le_succ hq)]

theorem take_listWrite_of_le (bs : List Nat) :
    ∀ dest p q, q ≤ p → (listWrite dest p bs).take q = dest.take q := by
  induction bs with
  | nil => intro dest p q _; rfl
  | cons b bs ih =>
    intro dest p q hq
    simp only [listWrite]
    rw [ih (dest.set p b) (p + 1) q (by omega), take_set_of_le dest p q b hq]

theorem take_set_succ (l : List Nat) :
    ∀ p b, p < l.length → (l.set p b).take (p + 1) = l.take p ++ [b] := by
  induction l with
  | nil => intro p b h; simp at h
  | cons x xs ih =>
    intro p b h
    cases p with
    | zero => simp
    | succ p =>
      simp only [List.set, List.take, List.cons_append]
      rw [ih p b (by simpa using h)]

theorem take_listWrite (bs : List Nat) :
    ∀ dest p, p + bs.length ≤ dest.length →
      (listWrite dest p bs).take (p + bs.length) = dest.take p ++ bs := by
  induction bs with
  | nil => intro dest p _; simp [listWrite]
  | cons b bs ih =>
    intro dest p h
    simp only [List.length_cons] at h
    simp only [listWrite, List.length_cons]
    have harr : p + (bs.length + 1) = (p + 1) + bs.length := by omega
    rw [harr, ih (dest.set p b) (p + 1) (by rw [List.length_set]; omega)]
    rw [take_set_succ dest p b (by omega)]
    simp

/-!
### The escape map actually produced on control-free UTF-8 input

On input whose characters all lie above U+001F, the only escapes produced
are the two-byte short forms for `"` and `\`, and the loop's stores and its
cursor agree, so the output is the per-byte map `escByte`.
-/

/-- Per-byte escape map on control-free input: quote and backslash gain a
leading backslash, everything else passes through. -/
def escByte (b : Nat) : List Nat := if b = 34 ∨ b = 92 then [92, b] else [b]

/-- `escByte` applied across a byte string. -/
def escString (s : List Nat) : List Nat := (s.map escByte).flatten

theorem escString_nil : escString [] = [] := rfl

theorem escString_cons (b : Nat) (s : List Nat) :
    escString (b :: s) = escByte b ++ escString s := by
  simp [escString]

theorem escString_length_le (s : List Nat) : (escString s).length ≤ 2 * s.length := by
  induction s with
  | nil => simp [escString]
  | cons b s ih =>
    rw [escString_cons]
    have hb : (escByte b).length ≤ 2 := by
      unfold escByte
      split <;> simp
    simp only [List.length_append, List.length_cons]
    omega

/-- Continuation byte of a multibyte UTF-8 character. -/
def isCont (b : Nat) : Prop := 0x80 ≤ b ∧ b ≤ 0xBF

/-- Well-formed UTF-8 byte strings (no embedded NUL): a sequence of one- to
four-byte characters with lead bytes in the standard ranges followed by the
right number of continuation bytes. -/
inductive Utf8Chars : List Nat → Prop
  | nil : Utf8Chars []
  | one {b : Nat} {rest : List Nat} :
      0 < b → b ≤ 0x7F → Utf8Chars rest → Utf8Chars (b :: rest)
  | two {b c1 : Nat} {rest : List Nat} :
      0xC0 ≤ b → b ≤ 0xDF → isCont c1 → Utf8Chars rest →
      Utf8Chars (b :: c1 :: rest)
  | three {b c1 c2 : Nat} {rest : List Nat} :
      0xE0 ≤ b → b ≤ 0xEF → isCont c1 → isCont c2 → Utf8Chars rest →
      Utf8Chars (b :: c1 :: c2 :: rest)
  | four {b c1 c2 c3 : Nat} {rest : List Nat} :
      0xF0 ≤ b → b ≤ 0xF7 → isCont c1 → isCont c2 → isCont c3 →
      Utf8Chars rest → Utf8Chars (b :: c1 :: c2 :: c3 :: rest)

theorem stringToJsonLoop_nil (destSize : Nat) (dest : List Nat) (j : Nat) :
    stringToJsonLoop destSize [] dest j = (listWrite dest j [0], j, .ok) := by
  rw [stringToJsonLoop]

/-- One clean iteration of the copy loop: when the reported escape length
`L` equals the number of stored bytes and there is room, the loop stores
`bytes` at `j`, advances the cursor by `L` and goes on with the remaining
input. -/
theorem stringToJsonLoop_chunk (destSize b c L : Nat)
    (rest rest' bytes dest : List Nat) (j : Nat)
    (hL : computeEscapedCharLength b = L)
    (hec : escapeCharacter b rest = (bytes, c))
    (hd : rest.drop (c - 1) = rest')
    (h0 : L ≠ 0) (h1 : ¬ destSize ≤ L + j) :
    stringToJsonLoop destSize (b :: rest) dest j =
      stringToJsonLoop destSize rest' (listWrite dest j bytes) (j + L) := by
  rw [stringToJsonLoop]
  simp only [hL, hec, if_neg h0, if_neg h1]
  rw [hd]

theorem escLen_plain (b : Nat) (h31 : 31 < b) (h34 : b ≠ 34) (h92 : b ≠ 92) :
    computeEscapedCharLength b = numBytesInChar b := by
  unfold computeEscapedCharLength
  rw [if_pos ⟨h31, h34, h92⟩]

theorem numBytesInChar_one (b : Nat) (h : b ≤ 0x7F) : numBytesInChar b = 1 := by
  unfold numBytesInChar
  split_ifs
  all_goals omega

theorem numBytesInChar_two (b : Nat) (h1 : 0xC0 ≤ b) (h2 : b ≤ 0xDF) :
    numBytesInChar b = 2 := by
  unfold numBytesInChar
  split_ifs
  all_goals omega

theorem numBytesInChar_three (b : Nat) (h1 : 0xE0 ≤ b) (h2 : b ≤ 0xEF) :
    numBytesInChar b = 3 := by
  unfold numBytesInChar
  split_ifs
  all_goals omega

theorem numBytesInChar_four (b : Nat) (h1 : 0xF0 ≤ b) (h2 : b ≤ 0xF7) :
    numBytesInChar b = 4 := by
  unfold numBytesInChar
  split_ifs
  all_goals omega

theorem escapeCharacter_plain (b : Nat) (rest : List Nat)
    (h31 : 31 < b) (h34 : b ≠ 34) (h92 : b ≠ 92) :
    escapeCharacter b rest =
      (b :: rest.take (numBytesInChar b - 1), numBytesInChar b) := by
  unfold escapeCharacter
  rw [if_pos ⟨h31, h34, h92⟩]

/-- The common glue of the inductive cases of `stringToJsonLoop_clean`:
from one chunk step, the escape-map decomposition of the input, and the
induction hypothesis' conclusions for the rest, derive the conclusions for
the whole input. -/
theorem loop_clean_glue (destSize : Nat) (s rest' bytes dest : List Nat) (j : Nat)
    (hstep : stringToJsonLoop destSize s dest j =
      stringToJsonLoop destSize rest' (listWrite dest j bytes) (j + bytes.length))
    (hesc : escString s = bytes ++ escString rest')
    (hjb : j + bytes.length ≤ destSize)
    (hlen : dest.length = destSize)
    (g1 : (stringToJsonLoop destSize rest' (listWrite dest j bytes)
            (j + bytes.length)).2 =
          (j + bytes.length + (escString rest').length, .ok))
    (g2 : (stringToJsonLoop destSize rest' (listWrite dest j bytes)
            (j + bytes.length)).1.take
              (j + bytes.length + (escString rest').length) =
          (listWrite dest j bytes).take (j + bytes.length) ++ escString rest')
    (g3 : (stringToJsonLoop destSize rest' (listWrite dest j bytes)
            (j + bytes.length)).1.length = destSize) :
    (stringToJsonLoop destSize s dest j).2 = (j + (escString s).length, .ok) ∧
    (stringToJsonLoop destSize s dest j).1.take (j + (escString s).length) =
      dest.take j ++ escString s ∧
    (stringToJsonLoop destSize s dest j).1.length = destSize := by
  refine ⟨?_, ?_, by rw [hstep]; exact g3⟩
  · rw [hstep, g1, hesc, Prod.mk.injEq]
    exact ⟨by simp only [List.length_append]; omega, rfl⟩
  · rw [hstep, hesc]
    have harr : j + (bytes ++ escString rest').length =
        j + bytes.length + (escString rest').length := by
      simp only [List.length_append]; omega
    rw [harr, g2, take_listWrite bytes dest j (by omega), List.append_assoc]

/-- On control-free UTF-8 input with enough room, the copy loop succeeds,
reports exactly `escString s` appended after the prior contents, and its
reported length is accurate. -/
theorem stringToJsonLoop_clean (destSize : Nat) (s : List Nat) (hs : Utf8Chars s) :
    ∀ dest j, (∀ b ∈ s, 31 < b) →
      j + 2 * s.length + 1 ≤ destSize → dest.length = destSize →
      (stringToJsonLoop destSize s dest j).2 = (j + (escString s).length, .ok) ∧
      (stringToJsonLoop destSize s dest j).1.take (j + (escString s).length) =
        dest.take j ++ escString s ∧
      (stringToJsonLoop destSize s dest j).1.length = destSize := by
  induction hs with
  | nil =>
    intro dest j _ _ hlen
    rw [stringToJsonLoop_nil]
    refine ⟨rfl, ?_, by rw [listWrite_length]; exact hlen⟩
    simp only [escString_nil, List.length_nil, Nat.add_zero, List.append_nil]
    exact take_listWrite_of_le [0] dest j j le_rfl
  | @one b rest hb0 hb7 hrest ih =>
    intro dest j hctl hroom hlen
    have hb31 : 31 < b := hctl b (List.mem_cons_self b rest)
    have hctl2 : ∀ x ∈ rest, 31 < x := fun x hx => hctl x (List.mem_cons_of_mem b hx)
    simp only [List.length_cons] at hroom
    by_cases h34 : b = 34
    · subst h34
      have hstep := stringToJsonLoop_chunk destSize 34 1 2 rest rest [92, 34] dest j
        (by decide) (by unfold escapeCharacter; norm_num) (by simp)
        (by decide) (by omega)
      obtain ⟨g1, g2, g3⟩ := ih (listWrite dest j [92, 34]) (j + 2) hctl2
        (by omega) (by rw [listWrite_length]; exact hlen)
      have hesc : escString (34 :: rest) = [92, 34] ++ escString rest := by
        rw [escString_cons]; rfl
      exact loop_clean_glue destSize (34 :: rest) rest [92, 34] dest j
        hstep hesc (by simp only [List.length_cons, List.length_nil]; omega)
        hlen g1 g2 g3
    · by_cases h92 : b = 92
      · subst h92
        have hstep := stringToJsonLoop_chunk destSize 92 1 2 rest rest [92, 92] dest j
          (by decide) (by unfold escapeCharacter; norm_num) (by simp)
          (by decide) (by omega)
        obtain ⟨g1, g2, g3⟩ := ih (listWrite dest j [92, 92]) (j + 2) hctl2
          (by omega) (by rw [listWrite_length]; exact hlen)
        have hesc : escString (92 :: rest) = [92, 92] ++ escString rest := by
          rw [escString_cons]; rfl
        exact loop_clean_glue destSize (92 :: rest) rest [92, 92] dest j
          hstep hesc (by simp only [List.length_cons, List.length_nil]; omega)
          hlen g1 g2 g3
      · have hnb : numBytesInChar b = 1 := numBytesInChar_one b hb7
        have hL : computeEscapedCharLength b = 1 := by
          rw [escLen_plain b hb31 h34 h92, hnb]
        have hec : escapeCharacter b rest = ([b], 1) := by
          rw [escapeCharacter_plain b rest hb31 h34 h92, hnb]
          simp
        have hstep := stringToJsonLoop_chunk destSize b 1 1 rest rest [b] dest j
          hL hec (by simp) (by decide) (by omega)
        obtain ⟨g1, g2, g3⟩ := ih (listWrite dest j [b]) (j + 1) hctl2
          (by omega) (by rw [listWrite_length]; exact hlen)
        have hesc : escString (b :: rest) = [b] ++ escString rest := by
          rw [escString_cons]
          unfold escByte
          rw [if_neg (by tauto)]
        exact loop_clean_glue destSize (b :: rest) rest [b] dest j
          hstep hesc (by simp only [List.length_cons, List.length_nil]; omega)
          hlen g1 g2 g3
  | @two b c1 rest hb0 hb7 hc1 hrest ih =>
    intro dest j hctl hroom hlen
    have hb31 : 31 < b := by omega
    have h34 : b ≠ 34 := by omega
    have h92 : b ≠ 92 := by omega
    have hctl2 : ∀ x ∈ rest, 31 < x := fun x hx => hctl x (by simp [hx])
    simp only [List.length_cons] at hroom
    have hnb : numBytesInChar b = 2 := numBytesInChar_two b hb0 hb7
    have hL : computeEscapedCharLength b = 2 := by
      rw [escLen_plain b hb31 h34 h92, hnb]
    have hec : escapeCharacter b (c1 :: rest) = ([b, c1], 2) := by
      rw [escapeCharacter_plain b (c1 :: rest) hb31 h34 h92, hnb]
      simp
    have hstep := stringToJsonLoop_chunk destSize b 2 2 (c1 :: rest) rest
      [b, c1] dest j hL hec rfl (by decide) (by omega)
    obtain ⟨g1, g2, g3⟩ := ih (listWrite dest j [b, c1]) (j + 2) hctl2
      (by omega) (by rw [listWrite_length]; exact hlen)
    have hesc : escString (b :: c1 :: rest) = [b, c1] ++ escString rest := by
      rw [escString_cons, escString_cons]
      unfold escByte
      rw [if_neg (by omega), if_neg (by obtain ⟨hx, hy⟩ := hc1; omega)]
      simp
    exact loop_clean_glue destSize (b :: c1 :: rest) rest [b, c1] dest j
      hstep hesc (by simp only [List.length_cons, List.length_nil]; omega)
      hlen g1 g2 g3
  | @three b c1 c2 rest hb0 hb7 hc1 hc2 hrest ih =>
    intro dest j hctl hroom hlen
    have hb31 : 31 < b := by omega
    have h34 : b ≠ 34 := by omega
    have h92 : b ≠ 92 := by omega
    have hctl2 : ∀ x ∈ rest, 31 < x := fun x hx => hctl x (by simp [hx])
    simp only [List.length_cons] at hroom
    have hnb : numBytesInChar b = 3 := numBytesInChar_three b hb0 hb7
    have hL : computeEscapedCharLength b = 3 := by
      rw [escLen_plain b hb31 h34 h92, hnb]
    have hec : escapeCharacter b (c1 :: c2 :: rest) = ([b, c1, c2], 3) := by
      rw [escapeCharacter_plain b (c1 :: c2 :: rest) hb31 h34 h92, hnb]
      simp
    have hstep := stringToJsonLoop_chunk destSize b 3 3 (c1 :: c2 :: rest) rest
      [b, c1, c2] dest j hL hec rfl (by decide) (by omega)
    obtain ⟨g1, g2, g3⟩ := ih (listWrite dest j [b, c1, c2]) (j + 3) hctl2
      (by omega) (by rw [listWrite_length]; exact hlen)
    have hesc : escString (b :: c1 :: c2 :: rest) =
        [b, c1, c2] ++ escString rest := by
      rw [escString_cons, escString_cons, escString_cons]
      unfold escByte
      rw [if_neg (by omega), if_neg (by obtain ⟨hx, hy⟩ := hc1; omega),
        if_neg (by obtain ⟨hx, hy⟩ := hc2; omega)]
      simp
    exact loop_clean_glue destSize (b :: c1 :: c2 :: rest) rest [b, c1, c2] dest j
      hstep hesc (by simp only [List.length_cons, List.length_nil]; omega)
      hlen g1 g2 g3
  | @four b c1 c2 c3 rest hb0 hb7 hc1 hc2 hc3 hrest ih =>
    intro dest j hctl hroom hlen
    have hb31 : 31 < b := by omega
    have h34 : b ≠ 34 := by omega
    have h92 : b ≠ 92 := by omega
    have hctl2 : ∀ x ∈ rest, 31 < x := fun x hx => hctl x (by simp [hx])
    simp only [List.length_cons] at hroom
    have hnb : numBytesInChar b = 4 := numBytesInChar_four b hb0 hb7
    have hL : computeEscapedCharLength b = 4 := by
      rw [escLen_plain b hb31 h34 h92, hnb]
    have hec : escapeCharacter b (c1 :: c2 :: c3 :: rest) = ([b, c1, c2, c3], 4) := by
      rw [escapeCharacter_plain b (c1 :: c2 :: c3 :: rest) hb31 h34 h92, hnb]
      simp
    have hstep := stringToJsonLoop_chunk destSize b 4 4 (c1 :: c2 :: c3 :: rest) rest
      [b, c1, c2, c3] dest j hL hec rfl (by decide) (by omega)
    obtain ⟨g1, g2, g3⟩ := ih (listWrite dest j [b, c1, c2, c3]) (j + 4) hctl2
      (by omega) (by rw [listWrite_length]; exact hlen)
    have hesc : escString (b :: c1 :: c2 :: c3 :: rest) =
        [b, c1, c2, c3] ++ escString rest := by
      rw [escString_cons, escString_cons, escString_cons, escString_cons]
      unfold escByte
      rw [if_neg (by omega), if_neg (by obtain ⟨hx, hy⟩ := hc1; omega),
        if_neg (by obtain ⟨hx, hy⟩ := hc2; omega),
        if_neg (by obtain ⟨hx, hy⟩ := hc3; omega)]
      simp
    exact loop_clean_glue destSize (b :: c1 :: c2 :: c3 :: rest) rest
      [b, c1, c2, c3] dest j hstep hesc
      (by simp only [List.length_cons, List.length_nil]; omega)
      hlen g1 g2 g3

/-!
### `dataSample_ConvertToJson` (String case) and `dataSample_JsonToString`

`dataSample_ConvertToJson` on a String-typed sample wraps the value in
double quotes around the escaped form produced by `dataSample_StringToJson`.
The reverse function `dataSample_JsonToString` strips the outer quotes and
removes each backslash, copying the byte that follows it verbatim.
-/

/-- The `IO_DATA_TYPE_STRING` case of `dataSample_ConvertToJson` from
`dataSample.c`: require at least 3 bytes, write the opening quote, run
`dataSample_StringToJson` into the rest of the buffer, fail with `Overflow`
if that failed or if there is no room left for the closing quote, otherwise
append the closing quote.  The returned list is the contents of the C
string in the buffer on return. -/
def dataSample_ConvertToJson_string (s : List Nat) (valueBuffSize : Nat) :
    List Nat × LeResult :=
  if valueBuffSize < 3 then ([], .overflow)
  else
    let r := dataSample_StringToJson s (valueBuffSize - 1)
    if r.2.2 ≠ .ok ∨ valueBuffSize - 2 ≤ r.2.1 then
      (34 :: r.1.take r.2.1, .overflow)
    else
      (34 :: (r.1.take r.2.1 ++ [34]), .ok)

/-- The unescape loop of `dataSample_JsonToString` (operating after the
opening quote has been skipped): copy bytes until a backslash, then drop the
backslash and copy the following byte verbatim.  A trailing lone backslash
makes the C code copy the NUL terminator and then read past the end of the
string, which is undefined; the model stops there after copying the NUL. -/
def unescapeLoop : List Nat → List Nat
  | [] => []
  | b :: rest =>
    if b = 92 then
      match rest with
      | [] => [0]
      | c :: rest2 => c :: unescapeLoop rest2
    else b :: unescapeLoop rest

/-- `dataSample_JsonToString` from `dataSample.c`.  The destination must be
at least as large as the source.  A source that neither begins nor ends with
a double quote is copied through unchanged (`le_utf8_Copy`; with
`destSize >= srcLen` and whole strings this is the identity — if the string
just fits, `le_utf8_Copy` truncates at a character boundary, approximated
here by a byte-level truncation; no theorem below relies on that branch).
Otherwise the opening quote is skipped, the body is unescaped, and the final
byte of the unescaped text (the closing quote) is replaced by the
terminator. -/
def dataSample_JsonToString (src : List Nat) (destSize : Nat) :
    List Nat × LeResult :=
  if destSize < src.length then ([], .badParameter)
  else if src.head? ≠ some 34 ∧ src.getLast? ≠ some 34 then
    if src.length < destSize then (src, .ok)
    else (src.take (destSize - 1), .overflow)
  else if src.length < 2 then ([], .formatError)
  else ((unescapeLoop (src.drop 1)).dropLast, .ok)

/-- Unescaping inverts `escByte`-escaping, including across the closing
quote. -/
theorem unescapeLoop_escString (s : List Nat) :
    unescapeLoop (escString s ++ [34]) = s ++ [34] := by
  induction s with
  | nil =>
    simp only [escString_nil, List.nil_append]
    simp [unescapeLoop]
  | cons b rest ih =>
    rw [escString_cons]
    by_cases hb : b = 34 ∨ b = 92
    · have he : escByte b = [92, b] := by unfold escByte; rw [if_pos hb]
      rw [he]
      simp only [List.cons_append, List.nil_append]
      rw [unescapeLoop.eq_def]
      simp [ih]
    · have he : escByte b = [b] := by unfold escByte; rw [if_neg hb]
      rw [he]
      simp only [List.cons_append, List.nil_append]
      rw [unescapeLoop.eq_def]
      have hb92 : ¬ b = 92 := fun h => hb (Or.inr h)
      simp only [if_neg hb92, List.cons.injEq, true_and]
      cases hrest : escString rest ++ [34] with
      | nil => simp at hrest
      | cons x xs =>
        rw [← hrest, ih]

/-- Packaged outcome of `dataSample_StringToJson` on clean input: the
reported string is exactly `escString s`. -/
theorem dataSample_StringToJson_clean (s : List Nat) (destSize : Nat)
    (hs : Utf8Chars s) (hc : ∀ b ∈ s, 31 < b)
    (hd : 2 * s.length + 1 ≤ destSize) :
    (dataSample_StringToJson s destSize).1.take (escString s).length =
      escString s ∧
    (dataSample_StringToJson s destSize).2 = ((escString s).length, .ok) := by
  obtain ⟨g1, g2, _⟩ := stringToJsonLoop_clean destSize s hs
    (List.replicate destSize 0) 0 hc (by omega) (by simp)
  simp only [Nat.zero_add, List.take_zero, List.nil_append] at g1 g2
  exact ⟨g2, g1⟩

/-- C4 (amended).  For every string value free of control characters
(every byte above U+001F — so quotes, backslashes and multibyte UTF-8
characters are all allowed), converting a String-typed sample to JSON with
`dataSample_ConvertToJson` (with room for the worst-case escaping) and
applying `dataSample_JsonToString` to the result returns exactly the
original string: the reversal strips the outer quotes and unescapes each
backslash-X pair byte-for-byte. -/
theorem c4_roundtrip (s : List Nat) (hs : Utf8Chars s) (hc : ∀ b ∈ s, 31 < b) :
    (dataSample_ConvertToJson_string s (2 * s.length + 3)).2 = .ok ∧
    dataSample_JsonToString
        (dataSample_ConvertToJson_string s (2 * s.length + 3)).1
        (dataSample_ConvertToJson_string s (2 * s.length + 3)).1.length =
      (s, .ok) := by
  obtain ⟨h1, h2⟩ := dataSample_StringToJson_clean s (2 * s.length + 2) hs hc
    (by omega)
  have hlesc : (escString s).length ≤ 2 * s.length := escString_length_le s
  have hcv : dataSample_ConvertToJson_string s (2 * s.length + 3) =
      (34 :: (escString s ++ [34]), .ok) := by
    unfold dataSample_ConvertToJson_string
    rw [if_neg (show ¬ 2 * s.length + 3 < 3 by omega)]
    have hss : 2 * s.length + 3 - 1 = 2 * s.length + 2 := by omega
    rw [hss]
    dsimp only
    rw [h2]
    rw [if_neg (by simp; omega)]
    dsimp only
    rw [h1]
  rw [hcv]
  constructor
  · rfl
  · unfold dataSample_JsonToString
    rw [if_neg (by omega)]
    have hhead : (34 :: (escString s ++ [34])).head? = some 34 := rfl
    rw [if_neg (by rw [hhead]; simp)]
    rw [if_neg (by simp)]
    simp only [List.drop_succ_cons, List.drop_zero]
    rw [unescapeLoop_escString]
    simp

/-- C4 witness: the round trip on the two-character string `"Hi"`. -/
theorem c4_roundtrip_witness :
    (dataSample_ConvertToJson_string [72, 105] (2 * 2 + 3)).2 = .ok ∧
    dataSample_JsonToString
        (dataSample_ConvertToJson_string [72, 105] (2 * 2 + 3)).1
        (dataSample_ConvertToJson_string [72, 105] (2 * 2 + 3)).1.length =
      ([72, 105], .ok) := by
  have h := c4_roundtrip [72, 105]
    (Utf8Chars.one (by omega) (by omega)
      (Utf8Chars.one (by omega) (by omega) Utf8Chars.nil))
    (by intro b hb; simp at hb; omega)
  simpa using h

/-- C4 counterexample to the claim as stated.  The string consisting of the
single newline byte 10 is emitted by the system as `"\n"` (bytes
34, 92, 110, 34), but the reversal unescapes `\n` to the literal letter
`n` (byte 110), not to the newline: the round trip over the system's own
emission is not the identity. -/
theorem c4_counterexample :
    dataSample_ConvertToJson_string [10] (2 * 1 + 3) = ([34, 92, 110, 34], .ok) ∧
    dataSample_JsonToString [34, 92, 110, 34] 4 = ([110], .ok) ∧
    ([110] : List Nat) ≠ [10] := by
  refine ⟨?_, by decide, by decide⟩
  have hsj : dataSample_StringToJson [10] 4 = ([92, 110, 0, 0], 2, .ok) := by
    simp [dataSample_StringToJson, stringToJsonLoop, computeEscapedCharLength,
      numBytesInChar, escapeCharacter, listWrite, List.replicate]
  unfold dataSample_ConvertToJson_string
  norm_num [hsj]

/-!
## C5: `dataSample_ExtractJson` (`dataSample.c`)

Data samples are immutable timestamped values.  The JSON helper component
(`components/json`) is external to the files under study, so `json_Extract`,
`json_ConvertToBoolean` and `json_ConvertToNumber` are taken as abstract
parameters: `json_Extract` either fails or yields the extracted text
together with its JSON type class.
-/

/-- `io_DataType_t` (the wire enum is Trigger=0, Boolean=1, Numeric=2,
String=3, JSON=4). -/
inductive IoDataType where
  | trigger
  | boolean
  | numeric
  | str
  | json
deriving DecidableEq, Repr

/-- `json_DataType_t` from the json helper component. -/
inductive JsonType where
  | null
  | boolean
  | number
  | string
  | object
  | array
deriving DecidableEq, Repr

/-- The value stored in a `DataSample_t`: the union member in use is chosen
by the resource's data type; string and JSON values share the string
member. -/
inductive DataValue where
  | trigger
  | boolean (b : Bool)
  | numeric (v : Rat)
  | str (s : List Nat)
deriving DecidableEq, Repr

/-- `DataSample_t` from `dataSample.c`: an immutable timestamp/value pair. -/
structure DataSample where
  timestamp : Rat
  value : DataValue
deriving DecidableEq, Repr

def dataSample_CreateTrigger (ts : Rat) : DataSample := ⟨ts, .trigger⟩

def dataSample_CreateBoolean (ts : Rat) (b : Bool) : DataSample := ⟨ts, .boolean b⟩

def dataSample_CreateNumeric (ts : Rat) (v : Rat) : DataSample := ⟨ts, .numeric v⟩

def dataSample_CreateString (ts : Rat) (s : List Nat) : DataSample := ⟨ts, .str s⟩

/-- `dataSample_CreateJson` simply delegates to `dataSample_CreateString`
(the data type is not stored in the sample itself). -/
def dataSample_CreateJson (ts : Rat) (s : List Nat) : DataSample :=
  dataSample_CreateString ts s

def dataSample_GetTimestamp (s : DataSample) : Rat := s.timestamp

/-- `dataSample_GetJson`: reads the string union member (meaningful only
for string-based samples; for others the C code would read a reinterpreted
union, modelled as the empty string). -/
def dataSample_GetJson (s : DataSample) : List Nat :=
  match s.value with
  | .str v => v
  | _ => []

/-- `dataSample_ExtractJson` from `dataSample.c`, with the json helper
component abstracted: `jsonExtract buffer spec` stands for `json_Extract`
(`none` on failure), `convToBool`/`convToNum` for the conversion helpers
applied to the extraction buffer. -/
def dataSample_ExtractJson
    (jsonExtract : List Nat → List Nat → Option (List Nat × JsonType))
    (convToBool : List Nat → Bool) (convToNum : List Nat → Rat)
    (sample : DataSample) (extractionSpec : List Nat) :
    Option (DataSample × IoDataType) :=
  match jsonExtract (dataSample_GetJson sample) extractionSpec with
  | none => none
  | some (resultBuff, jsonType) =>
    match jsonType with
    | .null =>
      some (dataSample_CreateTrigger (dataSample_GetTimestamp sample), .trigger)
    | .boolean =>
      some (dataSample_CreateBoolean (dataSample_GetTimestamp sample)
        (convToBool resultBuff), .boolean)
    | .number =>
      some (dataSample_CreateNumeric (dataSample_GetTimestamp sample)
        (convToNum resultBuff), .numeric)
    | .string =>
      some (dataSample_CreateString (dataSample_GetTimestamp sample)
        resultBuff, .str)
    | .object =>
      some (dataSample_CreateJson (dataSample_GetTimestamp sample)
        resultBuff, .json)
    | .array =>
      some (dataSample_CreateJson (dataSample_GetTimestamp sample)
        resultBuff, .json)

/-- The data type `dataSample_ExtractJson` reports for each JSON type
class. -/
def extractedType (jt : JsonType) : IoDataType :=
  match jt with
  | .null => .trigger
  | .boolean => .boolean
  | .number => .numeric
  | .string => .str
  | .object => .json
  | .array => .json

/-- C5.  Whenever extraction succeeds, `dataSample_ExtractJson` returns a
new sample whose timestamp equals the original sample's timestamp and whose
reported data type is Trigger for an extracted JSON null, Boolean for a
boolean, Numeric for a number, String for a string, and JSON for an object
or array; when extraction fails it returns NULL (`none`) and produces no
sample. -/
theorem c5_extract_json
    (jsonExtract : List Nat → List Nat → Option (List Nat × JsonType))
    (convToBool : List Nat → Bool) (convToNum : List Nat → Rat)
    (sample : DataSample) (extractionSpec : List Nat) :
    (∀ out, dataSample_ExtractJson jsonExtract convToBool convToNum
        sample extractionSpec = some out →
      out.1.timestamp = sample.timestamp ∧
      ∀ buff jt, jsonExtract (dataSample_GetJson sample) extractionSpec =
          some (buff, jt) → out.2 = extractedType jt) ∧
    (jsonExtract (dataSample_GetJson sample) extractionSpec = none →
      dataSample_ExtractJson jsonExtract convToBool convToNum
        sample extractionSpec = none) := by
  constructor
  · intro out hout
    unfold dataSample_ExtractJson at hout
    cases hje : jsonExtract (dataSample_GetJson sample) extractionSpec with
    | none => rw [hje] at hout; cases hout
    | some p =>
      rw [hje] at hout
      obtain ⟨buff0, jt0⟩ := p
      constructor
      · cases jt0 <;> (injection hout with h; rw [← h]; rfl)
      · intro buff jt hjt
        obtain ⟨h1, h2⟩ : buff0 = buff ∧ jt0 = jt := by
          constructor <;> { injection hjt with h; injection h }
        subst h1; subst h2
        cases jt0 <;> (injection hout with h; rw [← h]; rfl)
  · intro hje
    unfold dataSample_ExtractJson
    rw [hje]

/-- C5 witness: a concrete extractor that finds the number `1` under the
requested path: the result carries the original timestamp `5` and type
Numeric. -/
theorem c5_extract_json_witness :
    ((⟨5, DataValue.numeric 1⟩ : DataSample), IoDataType.numeric).1.timestamp =
      (⟨5, DataValue.str [123, 125]⟩ : DataSample).timestamp ∧
    IoDataType.numeric = extractedType JsonType.number := by
  have h := (c5_extract_json (fun _ _ => some ([49], JsonType.number))
    (fun _ => false) (fun _ => 1) ⟨5, DataValue.str [123, 125]⟩ [120]).1
    (⟨5, DataValue.numeric 1⟩, IoDataType.numeric) (by decide)
  exact ⟨h.1, h.2 [49] JsonType.number rfl⟩

/-!
## The resource tree, as seen by the snapshot engine

`resTree.c` itself is not among the files under study; the traversal
primitives it provides are modelled from the specification (section 4.2):
entries form a rooted tree, children are kept in insertion order,
`resTree_GetFirstChildEx`/`resTree_GetNextSiblingEx` walk that order and
skip entries whose `deleted` flag is set unless asked to include them, and
each entry carries the `new`/`deleted`/`relevant` flags, a last-modified
timestamp, an entry type and (for resources) a current value.
-/

/-- `admin_EntryType_t` (the namespace variant is called `nspace` because
`namespace` is reserved in Lean). -/
inductive EntryType where
  | nspace
  | input
  | output
  | observation
  | placeholder
deriving DecidableEq, Repr

/-- Modelled from the spec: the per-entry state of a resource tree entry
read by the snapshot engine and the JSON formatter. -/
structure EntryData where
  name : List Nat
  entryType : EntryType
  isNew : Bool
  isDeleted : Bool
  isMandatory : Bool
  lastModified : Rat
  relevant : Bool
  dataType : IoDataType
  currentValue : Option DataSample
deriving DecidableEq, Repr

/-- Modelled from the spec: a resource tree entry with its ordered
children. -/
inductive Entry where
  | node (data : EntryData) (children : List Entry)

def Entry.data : Entry → EntryData
  | .node d _ => d

def Entry.children : Entry → List Entry
  | .node _ cs => cs

def resTree_IsNew (e : Entry) : Bool := e.data.isNew

def resTree_IsDeleted (e : Entry) : Bool := e.data.isDeleted

def resTree_IsRelevant (e : Entry) : Bool := e.data.relevant

def resTree_GetLastModified (e : Entry) : Rat := e.data.lastModified

/-- `SNAPSHOT_FILTER_CREATED` from `snapshot.h`. -/
def SNAPSHOT_FILTER_CREATED : Nat := 1
/-- `SNAPSHOT_FILTER_DELETED` from `snapshot.h`. -/
def SNAPSHOT_FILTER_DELETED : Nat := 2
/-- `SNAPSHOT_FILTER_NORMAL` from `snapshot.h`. -/
def SNAPSHOT_FILTER_NORMAL : Nat := 4

/-- `snapshot_IsTimely` from `snapshot.c`: strictly newer than the
snapshot's `since` stamp. -/
def snapshot_IsTimely (since : Rat) (e : Entry) : Bool :=
  decide (since < resTree_GetLastModified e)

mutual
/-- `UpdateRelevance` from `snapshot.c`.  `isRoot` stands for the pointer
comparison `nodeRef == Snapshot.rootRef` (true exactly at the pass root).
The own-merit flag is the if/else-if chain of the source; the child loop
(`resTree_GetFirstChildEx(nodeRef, true)` and onwards, so deleted children
included) recursively annotates the children and folds their relevance in.
Returns the tree with the `relevant` flags set. -/
def updateRelevance (isRoot : Bool) (filter : Nat) (since : Rat) : Entry → Entry
  | .node d cs =>
    let own : Bool :=
      if isRoot = true then true
      else if filter &&& SNAPSHOT_FILTER_CREATED ≠ 0 ∧ d.isNew = true then true
      else if filter &&& SNAPSHOT_FILTER_DELETED ≠ 0 ∧ d.isDeleted = true then true
      else if filter &&& (SNAPSHOT_FILTER_CREATED ||| SNAPSHOT_FILTER_NORMAL) ≠ 0 then
        decide (since < d.lastModified)
      else false
    let cs2 := updateRelevanceList filter since cs
    .node { d with relevant := own || cs2.any (fun c => resTree_IsRelevant c) } cs2

/-- The child loop of `UpdateRelevance`. -/
def updateRelevanceList (filter : Nat) (since : Rat) : List Entry → List Entry
  | [] => []
  | c :: rest =>
    updateRelevance false filter since c :: updateRelevanceList filter since rest
end

/-- The own-merit predicate that `UpdateRelevance` actually computes for a
non-root entry (the if/else-if chain flattened to a disjunction): note the
third disjunct fires whenever Created *or* Normal is in the filter. -/
def codeFilterMatch (filter : Nat) (since : Rat) (d : EntryData) : Bool :=
  (decide (filter &&& SNAPSHOT_FILTER_CREATED ≠ 0) && d.isNew) ||
  (decide (filter &&& SNAPSHOT_FILTER_DELETED ≠ 0) && d.isDeleted) ||
  (decide (filter &&& (SNAPSHOT_FILTER_CREATED ||| SNAPSHOT_FILTER_NORMAL) ≠ 0)
    && decide (since < d.lastModified))

/-- The filter-match predicate as the claim words it: Created requires the
new flag, Deleted the deleted flag, Normal the timeliness test. -/
def claimFilterMatch (filter : Nat) (since : Rat) (d : EntryData) : Bool :=
  (decide (filter &&& SNAPSHOT_FILTER_CREATED ≠ 0) && d.isNew) ||
  (decide (filter &&& SNAPSHOT_FILTER_DELETED ≠ 0) && d.isDeleted) ||
  (decide (filter &&& SNAPSHOT_FILTER_NORMAL ≠ 0) && decide (since < d.lastModified))

mutual
/-- Coherence of the `relevant` annotation below the pass root: each
entry's flag is its own filter match or the flag of some child, and the
children are coherent too. -/
def relevanceCorrect (filter : Nat) (since : Rat) : Entry → Bool
  | .node d cs =>
    (d.relevant ==
      (codeFilterMatch filter since d || cs.any (fun c => resTree_IsRelevant c))) &&
    relevanceCorrectList filter since cs

def relevanceCorrectList (filter : Nat) (since : Rat) : List Entry → Bool
  | [] => true
  | c :: rest =>
    relevanceCorrect filter since c && relevanceCorrectList filter since rest
end

mutual
/-- The tree with all `relevant` flags cleared (to state that
`UpdateRelevance` changes nothing else). -/
def eraseRelevance : Entry → Entry
  | .node d cs => .node { d with relevant := false } (eraseRelevanceList cs)

def eraseRelevanceList : List Entry → List Entry
  | [] => []
  | c :: rest => eraseRelevance c :: eraseRelevanceList rest
end

theorem updateRelevance_node (isRoot : Bool) (filter : Nat) (since : Rat)
    (d : EntryData) (cs : List Entry) :
    updateRelevance isRoot filter since (.node d cs) =
      .node { d with relevant :=
          (if isRoot = true then true
           else if filter &&& SNAPSHOT_FILTER_CREATED ≠ 0 ∧ d.isNew = true then true
           else if filter &&& SNAPSHOT_FILTER_DELETED ≠ 0 ∧ d.isDeleted = true then true
           else if filter &&& (SNAPSHOT_FILTER_CREATED ||| SNAPSHOT_FILTER_NORMAL) ≠ 0 then
             decide (since < d.lastModified)
           else false) ||
          (updateRelevanceList filter since cs).any (fun c => resTree_IsRelevant c) }
        (updateRelevanceList filter since cs) := by
  rw [updateRelevance]

/-- The if/else-if chain of `UpdateRelevance` for a non-root entry equals
the flat disjunction `codeFilterMatch`. -/
theorem relevanceOwn_eq (filter : Nat) (since : Rat) (d : EntryData) :
    (if (false : Bool) = true then true
     else if filter &&& SNAPSHOT_FILTER_CREATED ≠ 0 ∧ d.isNew = true then true
     else if filter &&& SNAPSHOT_FILTER_DELETED ≠ 0 ∧ d.isDeleted = true then true
     else if filter &&& (SNAPSHOT_FILTER_CREATED ||| SNAPSHOT_FILTER_NORMAL) ≠ 0 then
       decide (since < d.lastModified)
     else false) = codeFilterMatch filter since d := by
  unfold codeFilterMatch
  by_cases h1 : filter &&& SNAPSHOT_FILTER_CREATED ≠ 0 <;>
    by_cases h2 : filter &&& SNAPSHOT_FILTER_DELETED ≠ 0 <;>
    by_cases h3 : filter &&& (SNAPSHOT_FILTER_CREATED ||| SNAPSHOT_FILTER_NORMAL) ≠ 0 <;>
    cases hn : d.isNew <;> cases hd : d.isDeleted <;>
    simp_all

mutual
theorem updateRelevance_correct (filter : Nat) (since : Rat) :
    ∀ e, relevanceCorrect filter since (updateRelevance false filter since e) = true
  | .node d cs => by
    rw [updateRelevance_node, relevanceOwn_eq]
    rw [relevanceCorrect]
    simp only [Bool.and_eq_true, beq_iff_eq]
    exact ⟨rfl, updateRelevanceList_correct filter since cs⟩

theorem updateRelevanceList_correct (filter : Nat) (since : Rat) :
    ∀ l, relevanceCorrectList filter since (updateRelevanceList filter since l) = true
  | [] => rfl
  | c :: rest => by
    rw [updateRelevanceList, relevanceCorrectList]
    simp only [Bool.and_eq_true]
    exact ⟨updateRelevance_correct filter since c,
      updateRelevanceList_correct filter since rest⟩
end

mutual
theorem updateRelevance_erase (isRoot : Bool) (filter : Nat) (since : Rat) :
    ∀ e, eraseRelevance (updateRelevance isRoot filter since e) = eraseRelevance e
  | .node d cs => by
    rw [updateRelevance_node, eraseRelevance, eraseRelevance]
    rw [updateRelevanceList_erase filter since cs]

theorem updateRelevanceList_erase (filter : Nat) (since : Rat) :
    ∀ l, eraseRelevanceList (updateRelevanceList filter since l) = eraseRelevanceList l
  | [] => rfl
  | c :: rest => by
    rw [updateRelevanceList, eraseRelevanceList, eraseRelevanceList]
    rw [updateRelevance_erase false filter since c,
      updateRelevanceList_erase filter since rest]
end

/-- The pass root is always annotated relevant. -/
theorem updateRelevance_root_flag (filter : Nat) (since : Rat) (t : Entry) :
    resTree_IsRelevant (updateRelevance true filter since t) = true := by
  obtain ⟨d, cs⟩ := t
  rw [updateRelevance_node]
  simp [resTree_IsRelevant, Entry.data]

theorem relevanceCorrectList_mem (filter : Nat) (since : Rat) :
    ∀ l, relevanceCorrectList filter since l = true →
      ∀ c ∈ l, relevanceCorrect filter since c = true
  | [] => by
    intro _ c hc
    cases hc
  | x :: rest => by
    intro h c hc
    rw [relevanceCorrectList] at h
    simp only [Bool.and_eq_true] at h
    cases hc with
    | head => exact h.1
    | tail _ ht => exact relevanceCorrectList_mem filter since rest h.2 c ht

/-- C6 (amended).  Before each snapshot pass, `UpdateRelevance` marks the
pass's root entry as always relevant, changes nothing but the `relevant`
flags, and marks every other entry in the subtree as relevant exactly when
it matches the filter predicate the code computes — (Created active and the
entry is new) or (Deleted active and the entry is deleted) or (Created *or*
Normal active and the entry's last-modified time is strictly greater than
the snapshot's `since` stamp) — or at least one of its descendants is
relevant. -/
theorem c6_relevance (filter : Nat) (since : Rat) (t : Entry) :
    resTree_IsRelevant (updateRelevance true filter since t) = true ∧
    eraseRelevance (updateRelevance true filter since t) = eraseRelevance t ∧
    ∀ c ∈ (updateRelevance true filter since t).children,
      relevanceCorrect filter since c = true := by
  refine ⟨?_, updateRelevance_erase true filter since t, ?_⟩
  · obtain ⟨d, cs⟩ := t
    rw [updateRelevance_node]
    simp [resTree_IsRelevant, Entry.data]
  · obtain ⟨d, cs⟩ := t
    rw [updateRelevance_node]
    intro c hc
    simp only [Entry.children] at hc
    exact relevanceCorrectList_mem filter since (updateRelevanceList filter since cs)
      (updateRelevanceList_correct filter since cs) c hc

/-- C6 witness: a two-node tree under the live filter: the root is marked
relevant, the timely child is marked relevant, nothing else changed. -/
theorem c6_relevance_witness :
    resTree_IsRelevant (updateRelevance true 5 0
      (.node ⟨[114], .nspace, false, false, false, 0, false, .trigger, none⟩
        [.node ⟨[99], .input, false, false, false, 1, false, .numeric, none⟩ []])) =
      true ∧
    ∀ c ∈ (updateRelevance true 5 0
      (.node ⟨[114], .nspace, false, false, false, 0, false, .trigger, none⟩
        [.node ⟨[99], .input, false, false, false, 1, false, .numeric, none⟩ []])).children,
      relevanceCorrect 5 0 c = true := by
  have h := c6_relevance 5 0
    (.node ⟨[114], .nspace, false, false, false, 0, false, .trigger, none⟩
      [.node ⟨[99], .input, false, false, false, 1, false, .numeric, none⟩ []])
  exact ⟨h.1, h.2.2⟩

/-- C6 counterexample to the claim as stated.  With the Created filter
alone (mask 1) and `since = 0`, a leaf child that is neither new nor
deleted but has `last_modified = 1 > since` is marked relevant by
`UpdateRelevance` — yet it does not match the claim's filter predicate
(Created requires the new flag; Normal is not in the filter set) and it has
no descendants.  The chain in the source tests `filter & (CREATED|NORMAL)`
for the timeliness arm, so Created alone also admits merely-timely
entries. -/
theorem c6_counterexample :
    updateRelevance true 1 0
        (.node ⟨[114], .nspace, false, false, false, 0, false, .trigger, none⟩
          [.node ⟨[99], .input, false, false, false, 1, false, .numeric, none⟩ []]) =
      .node ⟨[114], .nspace, false, false, false, 0, true, .trigger, none⟩
        [.node ⟨[99], .input, false, false, false, 1, true, .numeric, none⟩ []] ∧
    claimFilterMatch 1 0 ⟨[99], .input, false, false, false, 1, false, .numeric, none⟩ =
      false := by
  constructor
  · norm_num [updateRelevance_node, updateRelevanceList, resTree_IsRelevant,
      Entry.data, SNAPSHOT_FILTER_CREATED, SNAPSHOT_FILTER_DELETED,
      SNAPSHOT_FILTER_NORMAL]
  · norm_num [claimFilterMatch, SNAPSHOT_FILTER_CREATED, SNAPSHOT_FILTER_DELETED,
      SNAPSHOT_FILTER_NORMAL]

/-!
## C9: route creation and cycle refusal (`res_SetSource`)

`resource.c` is absent from the sources under study; only the contract in
`resource.h` and the specification (section 4.3.1) describe `res_SetSource`.
The model below is therefore *modelled from the spec*: resources are nodes
`Fin n`; each node has at most one source pointer (`σ : Fin n → Option
(Fin n)`); `set_source(dst, src)` clears the pointer when `src` is null,
and otherwise walks upstream from `src` along source pointers — if that
walk reaches `dst` the call fails with `Duplicate`, and otherwise the
pointer is installed.  The walk is run with fuel `n` (the number of nodes),
which is shown below to be enough on any acyclic graph.
-/

/-- The upstream walk of `res_SetSource`, with fuel: does following source
pointers from `a` for at most `fuel` steps reach `b`? -/
def reachesB (n : Nat) (σ : Fin n → Option (Fin n)) :
    Nat → Fin n → Fin n → Bool
  | 0, a, b => a == b
  | fuel + 1, a, b =>
    a == b ||
      match σ a with
      | none => false
      | some p => reachesB n σ fuel p b

/-- Modelled from the spec: `res_SetSource(dst, src)`.  `none` clears the
route; otherwise the upstream walk from `src` must not reach `dst`
(`Duplicate` if it would), and installing an edge that is already present
succeeds and leaves the graph unchanged. -/
def res_SetSource (n : Nat) (σ : Fin n → Option (Fin n)) (dst : Fin n) :
    Option (Fin n) → (Fin n → Option (Fin n)) × LeResult
  | none => (Function.update σ dst none, .ok)
  | some src =>
    if reachesB n σ n src dst then (σ, .duplicate)
    else (Function.update σ dst (some src), .ok)

/-- Reachability along source pointers (any number of steps). -/
inductive Reaches (n : Nat) (σ : Fin n → Option (Fin n)) : Fin n → Fin n → Prop
  | refl (a : Fin n) : Reaches n σ a a
  | step {a b c : Fin n} : σ a = some b → Reaches n σ b c → Reaches n σ a c

/-- The route graph is a DAG: no node lies on a directed cycle. -/
def Acyclic (n : Nat) (σ : Fin n → Option (Fin n)) : Prop :=
  ∀ a b, σ a = some b → ¬ Reaches n σ b a

theorem Reaches.trans {n : Nat} {σ : Fin n → Option (Fin n)} {a b c : Fin n}
    (h1 : Reaches n σ a b) (h2 : Reaches n σ b c) : Reaches n σ a c := by
  induction h1 with
  | refl => exact h2
  | step hs _ ih => exact .step hs (ih h2)

/-- `k`-step iteration of the source pointer (the walk is deterministic
because each node has at most one source). -/
def iterSrc (n : Nat) (σ : Fin n → Option (Fin n)) : Nat → Fin n → Option (Fin n)
  | 0, a => some a
  | k + 1, a =>
    match σ a with
    | none => none
    | some p => iterSrc n σ k p

theorem iterSrc_zero (n : Nat) (σ : Fin n → Option (Fin n)) (a : Fin n) :
    iterSrc n σ 0 a = some a := rfl

theorem iterSrc_succ_none (n : Nat) (σ : Fin n → Option (Fin n)) (k : Nat)
    (a : Fin n) (h : σ a = none) : iterSrc n σ (k + 1) a = none := by
  rw [iterSrc, h]

theorem iterSrc_succ_some (n : Nat) (σ : Fin n → Option (Fin n)) (k : Nat)
    (a p : Fin n) (h : σ a = some p) :
    iterSrc n σ (k + 1) a = iterSrc n σ k p := by
  rw [iterSrc, h]

theorem iterSrc_add (n : Nat) (σ : Fin n → Option (Fin n)) :
    ∀ i j (a : Fin n), iterSrc n σ (i + j) a =
      match iterSrc n σ i a with
      | none => none
      | some c => iterSrc n σ j c := by
  intro i
  induction i with
  | zero =>
    intro j a
    simp [iterSrc]
  | succ i ih =>
    intro j a
    have harr : i + 1 + j = (i + j) + 1 := by omega
    rw [harr]
    cases hs : σ a with
    | none => rw [iterSrc_succ_none n σ (i + j) a hs, iterSrc_succ_none n σ i a hs]
    | some p =>
      rw [iterSrc_succ_some n σ (i + j) a p hs, iterSrc_succ_some n σ i a p hs]
      exact ih j p

theorem iterSrc_add_some (n : Nat) (σ : Fin n → Option (Fin n)) (i j : Nat)
    (a c : Fin n) (h : iterSrc n σ i a = some c) :
    iterSrc n σ (i + j) a = iterSrc n σ j c := by
  rw [iterSrc_add, h]

theorem iterSrc_add_none (n : Nat) (σ : Fin n → Option (Fin n)) (i j : Nat)
    (a : Fin n) (h : iterSrc n σ i a = none) :
    iterSrc n σ (i + j) a = none := by
  rw [iterSrc_add, h]

theorem reaches_iff_iter (n : Nat) (σ : Fin n → Option (Fin n)) (a b : Fin n) :
    Reaches n σ a b ↔ ∃ k, iterSrc n σ k a = some b := by
  constructor
  · intro h
    induction h with
    | refl => exact ⟨0, rfl⟩
    | @step x p c hs _ ih =>
      obtain ⟨k, hk⟩ := ih
      refine ⟨k + 1, ?_⟩
      rw [iterSrc_succ_some n σ k x p hs]
      exact hk
  · intro ⟨k, hk⟩
    induction k generalizing a with
    | zero =>
      rw [iterSrc_zero] at hk
      injection hk with hk
      subst hk
      exact .refl a
    | succ k ih =>
      cases hs : σ a with
      | none => rw [iterSrc_succ_none n σ k a hs] at hk; cases hk
      | some p =>
        rw [iterSrc_succ_some n σ k a p hs] at hk
        exact .step hs (ih p hk)

theorem reachesB_iff (n : Nat) (σ : Fin n → Option (Fin n)) :
    ∀ fuel (a b : Fin n), reachesB n σ fuel a b = true ↔
      ∃ k, k ≤ fuel ∧ iterSrc n σ k a = some b := by
  intro fuel
  induction fuel with
  | zero =>
    intro a b
    rw [reachesB]
    simp only [beq_iff_eq]
    constructor
    · intro h
      exact ⟨0, le_rfl, by rw [iterSrc_zero, h]⟩
    · intro ⟨k, hk, hit⟩
      have hk0 : k = 0 := by omega
      subst hk0
      rw [iterSrc_zero] at hit
      injection hit
  | succ fuel ih =>
    intro a b
    rw [reachesB]
    simp only [Bool.or_eq_true, beq_iff_eq]
    constructor
    · intro h
      rcases h with heq | hm
      · exact ⟨0, by omega, by rw [iterSrc_zero, heq]⟩
      · cases hs : σ a with
        | none => rw [hs] at hm; cases hm
        | some p =>
          rw [hs] at hm
          obtain ⟨k, hk, hit⟩ := (ih p b).mp hm
          refine ⟨k + 1, by omega, ?_⟩
          rw [iterSrc_succ_some n σ k a p hs]
          exact hit
    · intro ⟨k, hk, hit⟩
      cases k with
      | zero =>
        rw [iterSrc_zero] at hit
        injection hit with hit
        exact Or.inl hit
      | succ k =>
        cases hs : σ a with
        | none => rw [iterSrc_succ_none n σ k a hs] at hit; cases hit
        | some p =>
          rw [iterSrc_succ_some n σ k a p hs] at hit
          refine Or.inr ?_
          show reachesB n σ fuel p b = true
          exact (ih p b).mpr ⟨k, by omega, hit⟩

/-- On an acyclic graph every defined walk visits distinct nodes, so it is
shorter than the number of nodes. -/
theorem iterSrc_lt_card (n : Nat) (σ : Fin n → Option (Fin n))
    (hacyc : Acyclic n σ) :
    ∀ k (a b : Fin n), iterSrc n σ k a = some b → k < n := by
  intro k a b hk
  by_contra hge
  push_neg at hge
  have hsome : ∀ i : Fin (k + 1), ∃ c, iterSrc n σ i.1 a = some c := by
    intro i
    cases hc : iterSrc n σ i.1 a with
    | some c => exact ⟨c, rfl⟩
    | none =>
      have hij : i.1 + (k - i.1) = k := by omega
      have hnone := iterSrc_add_none n σ i.1 (k - i.1) a hc
      rw [hij, hk] at hnone
      cases hnone
  classical
  choose f hf using hsome
  have haux : ∀ i j : Fin (k + 1), i.1 ≤ j.1 → f i = f j → i = j := by
    intro i j hij heq
    by_contra hne
    have hlt : i.1 < j.1 := by
      rcases Nat.lt_or_ge i.1 j.1 with h | h
      · exact h
      · exact absurd (Fin.ext (by omega)) hne
    have hj := hf j
    have hadd : i.1 + (j.1 - i.1) = j.1 := by omega
    have hstep := iterSrc_add_some n σ i.1 (j.1 - i.1) a (f i) (hf i)
    rw [hadd, hj] at hstep
    obtain ⟨m, hm⟩ : ∃ m, j.1 - i.1 = m + 1 := ⟨j.1 - i.1 - 1, by omega⟩
    rw [hm] at hstep
    cases hs : σ (f i) with
    | none =>
      rw [iterSrc_succ_none n σ m (f i) hs] at hstep
      cases hstep
    | some p =>
      rw [iterSrc_succ_some n σ m (f i) p hs] at hstep
      have hreach : Reaches n σ p (f i) := by
        rw [heq]
        exact (reaches_iff_iter n σ p (f j)).mpr ⟨m, hstep.symm⟩
      exact hacyc (f i) p hs hreach
  have hinj : Function.Injective f := by
    intro i j heq
    rcases le_total i.1 j.1 with h | h
    · exact haux i j h heq
    · exact (haux j i h heq.symm).symm
  have hcard := Fintype.card_le_of_injective f hinj
  simp only [Fintype.card_fin] at hcard
  omega

/-- On an acyclic graph, fuel `n` is enough: the Boolean walk is complete
for reachability. -/
theorem reachesB_complete (n : Nat) (σ : Fin n → Option (Fin n))
    (hacyc : Acyclic n σ) (a b : Fin n) (h : Reaches n σ a b) :
    reachesB n σ n a b = true := by
  obtain ⟨k, hk⟩ := (reaches_iff_iter n σ a b).mp h
  exact (reachesB_iff n σ n a b).mpr ⟨k,
    Nat.le_of_lt (iterSrc_lt_card n σ hacyc k a b hk), hk⟩

theorem reachesB_sound (n : Nat) (σ : Fin n → Option (Fin n)) (fuel : Nat)
    (a b : Fin n) (h : reachesB n σ fuel a b = true) : Reaches n σ a b := by
  obtain ⟨k, _, hk⟩ := (reachesB_iff n σ fuel a b).mp h
  exact (reaches_iff_iter n σ a b).mpr ⟨k, hk⟩

/-- Decomposition of a path after installing the edge `dst → src`: it is an
old path, or it runs through `dst` (and from there through `src`). -/
theorem reaches_update_decomp (n : Nat) (σ : Fin n → Option (Fin n))
    (dst src : Fin n) (x y : Fin n)
    (h : Reaches n (Function.update σ dst (some src)) x y) :
    Reaches n σ x y ∨
      (Reaches n σ x dst ∧ Reaches n (Function.update σ dst (some src)) src y) := by
  induction h with
  | refl a => exact Or.inl (.refl a)
  | @step a b c hs hr ih =>
    by_cases hadst : a = dst
    · subst hadst
      rw [Function.update_same] at hs
      injection hs with hs
      subst hs
      exact Or.inr ⟨.refl a, hr⟩
    · rw [Function.update_noteq hadst] at hs
      rcases ih with hold | ⟨hdst, hsrc⟩
      · exact Or.inl (.step hs hold)
      · exact Or.inr ⟨.step hs hdst, hsrc⟩

/-- Installing an edge whose upstream walk does not reach the destination
preserves acyclicity. -/
theorem acyclic_update (n : Nat) (σ : Fin n → Option (Fin n)) (dst src : Fin n)
    (hacyc : Acyclic n σ) (hnr : ¬ Reaches n σ src dst) :
    Acyclic n (Function.update σ dst (some src)) := by
  intro a b hab hba
  by_cases hadst : a = dst
  · rw [hadst] at hab hba
    rw [Function.update_same] at hab
    injection hab with hab
    rw [← hab] at hba
    rcases reaches_update_decomp n σ dst src src dst hba with hold | ⟨hdst, _⟩
    · exact hnr hold
    · exact hnr hdst
  · rw [Function.update_noteq hadst] at hab
    rcases reaches_update_decomp n σ dst src b a hba with hold | ⟨hdst, hsrc⟩
    · exact hacyc a b hab hold
    · rcases reaches_update_decomp n σ dst src src a hsrc with hold2 | ⟨hdst2, _⟩
      · exact hnr (hold2.trans (.step hab hdst))
      · exact hnr hdst2

/-- Clearing a route preserves acyclicity. -/
theorem acyclic_clear (n : Nat) (σ : Fin n → Option (Fin n)) (dst : Fin n)
    (hacyc : Acyclic n σ) : Acyclic n (Function.update σ dst none) := by
  have hmono : ∀ x y, Reaches n (Function.update σ dst none) x y →
      Reaches n σ x y := by
    intro x y h
    induction h with
    | refl a => exact .refl a
    | @step a b c hs _ ih =>
      by_cases hadst : a = dst
      · subst hadst
        rw [Function.update_same] at hs
        cases hs
      · rw [Function.update_noteq hadst] at hs
        exact .step hs ih
  intro a b hab hba
  by_cases hadst : a = dst
  · subst hadst
    rw [Function.update_same] at hab
    cases hab
  · rw [Function.update_noteq hadst] at hab
    exact hacyc a b hab (hmono b a hba)

/-- C9.  For every sequence of `res_SetSource` calls starting from the
routeless state: a call whose upstream walk from the requested source
reaches the destination (i.e. that would introduce a directed cycle) fails
with `Duplicate` and leaves the graph unchanged; re-adding an
already-present edge succeeds as a no-op; and every successful call —
including clears — preserves acyclicity, so the route graph is always a
DAG. -/
theorem c9_set_source (n : Nat) (σ : Fin n → Option (Fin n)) (dst src : Fin n)
    (hacyc : Acyclic n σ) :
    Acyclic n (fun _ : Fin n => none) ∧
    (reachesB n σ n src dst = true →
      res_SetSource n σ dst (some src) = (σ, .duplicate)) ∧
    (σ dst = some src → res_SetSource n σ dst (some src) = (σ, .ok)) ∧
    ((res_SetSource n σ dst (some src)).2 = .ok →
      Acyclic n (res_SetSource n σ dst (some src)).1) ∧
    Acyclic n (res_SetSource n σ dst none).1 := by
  refine ⟨?_, ?_, ?_, ?_, ?_⟩
  · intro a b hab
    cases hab
  · intro h
    rw [res_SetSource, if_pos h]
  · intro hdst
    have hnb : reachesB n σ n src dst = false := by
      cases hr : reachesB n σ n src dst with
      | false => rfl
      | true =>
        have := reachesB_sound n σ n src dst hr
        exact absurd this (hacyc dst src hdst)
    rw [res_SetSource, if_neg (by rw [hnb]; exact Bool.false_ne_true)]
    rw [← hdst, Function.update_eq_self]
  · intro hok
    rw [res_SetSource] at hok ⊢
    by_cases hr : reachesB n σ n src dst = true
    · rw [if_pos hr] at hok
      cases hok
    · rw [if_neg hr]
      exact acyclic_update n σ dst src hacyc
        (fun h => hr (reachesB_complete n σ hacyc src dst h))
  · exact acyclic_clear n σ dst hacyc

/-- C9 witness: starting from the routeless three-node graph, adding the
route `0 ← 1` succeeds and the graph stays acyclic. -/
theorem c9_set_source_witness :
    (res_SetSource 3 (fun _ => none) 0 (some 1)).2 = .ok ∧
    Acyclic 3 (res_SetSource 3 (fun _ => none) 0 (some 1)).1 := by
  have h := c9_set_source 3 (fun _ => none) 0 1
    (fun a b hab => Option.noConfusion hab)
  exact ⟨by decide, h.2.2.2.1 (by decide)⟩

/-!
## C8 and C10: the tree walk composed with the JSON formatter

The snapshot engine's five-state walker (`snapshot.c`) and the JSON
formatter's six-state micro machine (`jsonFormatter.c`) hand control back
and forth: every formatter callback buffers some bytes, re-arms the output
watch, and — once the buffer has drained — either advances its own micro
state or steps the outer walker (`snapshot_Step`).  Under the claims'
premise that the snapshot runs to normal completion (the sink drains every
write and no `LE_ASSERT` fires), each callback therefore reduces to a pure
function from formatter state and node context to new state plus emitted
bytes, and the deferred event-queue steps reduce to direct recursion.  The
definitions below keep that structure:

* `startTreeBurst`, `beginNodeBurst`, `endNodeBurst`, `endTreeBurst` are
  the four callbacks of `jsonFormatter.c`, each run through its micro
  states (`StartTree`; `BeginNode`/`NodeName`/`NodeOpen`/`NodeValues`/
  `NodeValueBody`; `EndObject`; `EndTree`) until `STATE_SNAPSHOT_STEP`;
* `walkNode` is `NodeBegin` + `NodeChildren` + `NodeEnd` for one node:
  the walker descends only if the node is relevant and not deleted,
  clears the newness flag in `NodeEnd` when the node was relevant;
* `walkSiblings` is the `NodeChildren`/`NodeSibling` loop over a sibling
  list: deleted siblings are skipped by
  `resTree_GetFirstChildEx`/`resTree_GetNextSiblingEx` unless the filter
  includes them, and `NodeSibling` releases a visited deleted node when
  `QUERY_SNAPSHOT_FLAG_FLUSH_DELETIONS` is set;
* `runPass` is `StartPass` (relevance annotation + `startTree`) followed
  by the walk from the pass root — and, faithfully to `NodeSibling`,
  onwards through the pass root's *following siblings*, whose relevance is
  not recomputed — ending in `endTree`;
* `snapLoop` is the `TreeEnd` pass-control loop (compare
  `snapshotTreeEnd`), and `runJsonSnapshot` starts it with the initial
  JSON formatter state from `GetJsonSnapshotFormatter` (live filter,
  `scan` set).

`none` throughout models an `LE_ASSERT` failure (a timely resource node
with no current value, or a string value whose JSON conversion overflows
the formatter buffer).  `snprintf("%lf")` is the abstract `numPrint`
parameter, and the root path produced by `resTree_GetPath` is the
`rootPath` parameter.
-/

/-- `LIVE_FILTERS` from `jsonFormatter.c`. -/
def LIVE_FILTERS : Nat := SNAPSHOT_FILTER_CREATED ||| SNAPSHOT_FILTER_NORMAL

/-- Modelled from the spec: the `QUERY_SNAPSHOT_FLAG_FLUSH_DELETIONS`
request-flag bit (`query.api` is not among the studied files; the exact bit
position is immaterial). -/
def QUERY_SNAPSHOT_FLAG_FLUSH_DELETIONS : Nat := 1

/-- The request fields of `snapshot_Formatter_t` plus the JSON formatter's
own persistent fields (`needsComma`, `isRoot`).  The buffer cursor fields
are omitted: under full drains the buffer is empty between bursts. -/
structure FmtState where
  filter : Nat
  scan : Bool
  needsComma : Bool
  isRoot : Bool
deriving DecidableEq, Repr

/-- ASCII bytes of `{"ts":`. -/
def jsonHeaderTs : List Nat := [123, 34, 116, 115, 34, 58]
/-- ASCII bytes of `,"root":"`. -/
def jsonHeaderRoot : List Nat := [44, 34, 114, 111, 111, 116, 34, 58, 34]
/-- ASCII bytes of `","upserted":`. -/
def jsonHeaderUpserted : List Nat :=
  [34, 44, 34, 117, 112, 115, 101, 114, 116, 101, 100, 34, 58]
/-- ASCII bytes of `,"deleted":`. -/
def jsonCommaDeleted : List Nat :=
  [44, 34, 100, 101, 108, 101, 116, 101, 100, 34, 58]
/-- ASCII bytes of `"type":`. -/
def jsonTypeField : List Nat := [34, 116, 121, 112, 101, 34, 58]
/-- ASCII bytes of `,"ts":`. -/
def jsonTsField : List Nat := [44, 34, 116, 115, 34, 58]
/-- ASCII bytes of `,"mandatory":`. -/
def jsonMandatoryField : List Nat :=
  [44, 34, 109, 97, 110, 100, 97, 116, 111, 114, 121, 34, 58]
/-- ASCII bytes of `,"new":`. -/
def jsonNewField : List Nat := [44, 34, 110, 101, 119, 34, 58]
/-- ASCII bytes of `,"value":`. -/
def jsonValueField : List Nat := [44, 34, 118, 97, 108, 117, 101, 34, 58]

/-- `Bool2Str` from `jsonFormatter.c`: ASCII `true` / `false`. -/
def boolBytes (b : Bool) : List Nat :=
  if b then [116, 114, 117, 101] else [102, 97, 108, 115, 101]

/-- The numeric value of `io_DataType_t` printed in the `type` field
(Trigger=0, Boolean=1, Numeric=2, String=3, JSON=4). -/
def ioTypeNat : IoDataType → Nat
  | .trigger => 0
  | .boolean => 1
  | .numeric => 2
  | .str => 3
  | .json => 4

/-- ASCII decimal digits of a natural number (`snprintf` with `%u`). -/
def decimalBytes (x : Nat) : List Nat := (Nat.toDigits 10 x).map Char.toNat

/-- `HUB_MAX_STRING_BYTES`, modelled from the spec (the maximum sample
string size; its exact value is immaterial, the theorems assume values
fit). -/
def HUB_MAX_STRING_BYTES : Nat := 50000

/-- The bool/numeric leg of `dataSample_ConvertToJson` used by
`NodeValues` (a mismatched union read would be unspecified; it is modelled
as empty). -/
def scalarJson (numPrint : Rat → List Nat) (dataType : IoDataType)
    (v : DataValue) : List Nat :=
  match dataType, v with
  | .boolean, .boolean b => boolBytes b
  | .numeric, .numeric q => numPrint q
  | _, _ => []

/-- The string/JSON leg of `dataSample_ConvertToJson` used by
`NodeValueBody`, into the formatter buffer of `HUB_MAX_STRING_BYTES + 2`
bytes; `none` models the `LE_ASSERT_OK` on overflow. -/
def stringValueJson (dataType : IoDataType) (v : DataValue) :
    Option (List Nat) :=
  match dataType, v with
  | .str, .str sv =>
    let r := dataSample_ConvertToJson_string sv (HUB_MAX_STRING_BYTES + 2)
    if r.2 = .ok then some r.1 else none
  | .json, .str sv => some sv
  | _, _ => none

/-- `StartTree` from `jsonFormatter.c`: under a live filter, emit the
document header with the snapshot timestamp and root path; under the
deleted filter, emit `,"deleted":` (the comma is hard-coded).  `isRoot` is
set for the coming root node; control then returns to the walker. -/
def startTreeBurst (numPrint : Rat → List Nat) (rootPath : List Nat) (ts : Rat)
    (f : FmtState) : FmtState × List Nat :=
  if f.filter &&& LIVE_FILTERS ≠ 0 then
    ({ f with isRoot := true },
      jsonHeaderTs ++ numPrint ts ++ jsonHeaderRoot ++ rootPath ++
        jsonHeaderUpserted)
  else
    ({ f with isRoot := true }, jsonCommaDeleted)

/-- `BeginNode` through `NodeValueBody` from `jsonFormatter.c`, run to the
next `STATE_SNAPSHOT_STEP`: open the object key (with a comma when
`needsComma`, and no key at all for the root), emit the node fields when
the node is a resource, the filter is live and the node is timely
(asserting that a current value exists), and emit the value for non-Trigger
types. -/
def beginNodeBurst (numPrint : Rat → List Nat) (since : Rat) (d : EntryData)
    (f : FmtState) : Option (FmtState × List Nat) :=
  let keyOut : List Nat :=
    if f.isRoot then [] else (if f.needsComma then [44] else []) ++ [34] ++ d.name
  let openOut : List Nat := (if f.isRoot then [] else [34, 58]) ++ [123]
  match d.entryType with
  | .nspace => some ({ f with isRoot := false, needsComma := false },
      keyOut ++ openOut)
  | _ =>
    if f.filter &&& LIVE_FILTERS ≠ 0 ∧ since < d.lastModified then
      match d.currentValue with
      | none => none
      | some sample =>
        let fieldsOut :=
          jsonTypeField ++ decimalBytes (ioTypeNat d.dataType) ++
          jsonTsField ++ numPrint sample.timestamp ++
          jsonMandatoryField ++ boolBytes d.isMandatory ++
          jsonNewField ++ boolBytes d.isNew
        match d.dataType with
        | .trigger => some ({ f with isRoot := false, needsComma := true },
            keyOut ++ openOut ++ fieldsOut)
        | .boolean => some ({ f with isRoot := false, needsComma := true },
            keyOut ++ openOut ++ fieldsOut ++ jsonValueField ++
              scalarJson numPrint d.dataType sample.value)
        | .numeric => some ({ f with isRoot := false, needsComma := true },
            keyOut ++ openOut ++ fieldsOut ++ jsonValueField ++
              scalarJson numPrint d.dataType sample.value)
        | _ =>
          match stringValueJson d.dataType sample.value with
          | none => none
          | some body => some ({ f with isRoot := false, needsComma := true },
              keyOut ++ openOut ++ fieldsOut ++ jsonValueField ++ body)
    else
      some ({ f with isRoot := false, needsComma := false }, keyOut ++ openOut)

/-- `EndObject` from `jsonFormatter.c`: close the node object. -/
def endNodeBurst (f : FmtState) : FmtState × List Nat :=
  ({ f with needsComma := true }, [125])

/-- `EndTree` from `jsonFormatter.c`: after a live pass, request another
pass under the deleted filter (no output); after the deleted pass, clear
the scan request and close the document. -/
def endTreeBurst (f : FmtState) : FmtState × List Nat :=
  if f.filter &&& LIVE_FILTERS ≠ 0 then
    ({ f with scan := true, filter := SNAPSHOT_FILTER_DELETED,
              needsComma := true }, [])
  else
    ({ f with scan := false, needsComma := false }, [125])

mutual
/-- `NodeBegin`/`NodeChildren`/`NodeEnd` for one node.  An irrelevant node
produces nothing and is left untouched (its subtree is not entered).  A
relevant node runs `beginNode`; its children are looked up only if it is
not deleted; `NodeEnd` emits `endNode` and clears the newness flag.
Returns the final formatter state, the emitted bytes, and the updated
entry. -/
def walkNode (numPrint : Rat → List Nat) (flags : Nat) (since : Rat)
    (f : FmtState) : Entry → Option (FmtState × List Nat × Entry)
  | .node d cs =>
    if d.relevant = true then
      match beginNodeBurst numPrint since d f with
      | none => none
      | some (f1, out1) =>
        if d.isDeleted = true then
          some ({ f1 with needsComma := true }, out1 ++ [125],
            .node { d with isNew := false } cs)
        else
          match walkSiblings numPrint flags since f1 cs with
          | none => none
          | some (f2, out2, cs2) =>
            some ({ f2 with needsComma := true }, out1 ++ out2 ++ [125],
              .node { d with isNew := false } cs2)
    else
      some (f, [], .node d cs)

/-- The sibling chain: deleted entries are skipped (left in place,
unvisited) unless the filter includes deleted nodes; each visited entry is
walked and then, in `NodeSibling`, released if the flush flag is set and
the entry is deleted. -/
def walkSiblings (numPrint : Rat → List Nat) (flags : Nat) (since : Rat)
    (f : FmtState) : List Entry → Option (FmtState × List Nat × List Entry)
  | [] => some (f, [], [])
  | e :: rest =>
    if f.filter &&& SNAPSHOT_FILTER_DELETED = 0 ∧ resTree_IsDeleted e = true then
      match walkSiblings numPrint flags since f rest with
      | none => none
      | some (f2, out, rest2) => some (f2, out, e :: rest2)
    else
      match walkNode numPrint flags since f e with
      | none => none
      | some (f1, out1, e1) =>
        match walkSiblings numPrint flags since f1 rest with
        | none => none
        | some (f2, out2, rest2) =>
          some (f2, out1 ++ out2,
            (if flags &&& QUERY_SNAPSHOT_FLAG_FLUSH_DELETIONS ≠ 0 ∧
                resTree_IsDeleted e = true
             then [] else [e1]) ++ rest2)
end

/-- `StartPass` + one full pass + `endTree`: annotate relevance from the
pass root, emit `startTree`, walk the root, then — exactly as
`NodeSibling` does with an empty parent stack — continue through the pass
root's following siblings (whose relevance the pass never recomputes), and
finish with `endTree`.  (Releasing a deleted pass root under the flush flag
would be a use-after-free in the C code and is outside the model.) -/
def runPass (numPrint : Rat → List Nat) (rootPath : List Nat) (ts : Rat)
    (flags : Nat) (since : Rat) (f : FmtState) (root : Entry)
    (rootSibs : List Entry) :
    Option (FmtState × List Nat × Entry × List Entry) :=
  let root1 := updateRelevance true f.filter since root
  let sf := startTreeBurst numPrint rootPath ts f
  match walkNode numPrint flags since sf.1 root1 with
  | none => none
  | some (f2, out2, root2) =>
    match walkSiblings numPrint flags since f2 rootSibs with
    | none => none
    | some (f3, out3, sibs3) =>
      let ef := endTreeBurst f3
      some (ef.1, sf.2 ++ out2 ++ out3 ++ ef.2, root2, sibs3)

/-- The `TreeEnd` pass-control loop over full passes (compare
`snapshotTreeEnd`): run a pass, and continue while the formatter requests a
scan and fewer than `MAX_PASSES` passes have run; otherwise finish with
`OutOfRange` or `Ok`. -/
def snapLoop (numPrint : Rat → List Nat) (rootPath : List Nat) (ts : Rat)
    (flags : Nat) (since : Rat) (f : FmtState) (root : Entry)
    (sibs : List Entry) (passes : Nat) : Option (List Nat × Nat × LeResult) :=
  match runPass numPrint rootPath ts flags since f root sibs with
  | none => none
  | some (f2, out, root2, sibs2) =>
    if f2.scan = true ∧ passes + 1 < MAX_PASSES then
      match snapLoop numPrint rootPath ts flags since f2 root2 sibs2
          (passes + 1) with
      | none => none
      | some (out3, pc, st) => some (out ++ out3, pc, st)
    else if MAX_PASSES ≤ passes + 1 then some (out, passes + 1, .outOfRange)
    else some (out, passes + 1, .ok)
termination_by MAX_PASSES - passes
decreasing_by omega

/-- The initial JSON formatter state set up by `GetJsonSnapshotFormatter`:
live filter, scan requested. -/
def jsonFmtInit : FmtState :=
  { filter := LIVE_FILTERS, scan := true, needsComma := false, isRoot := true }

/-- A JSON-format snapshot from `query_TakeSnapshot` onwards: the JSON
formatter's initial `scan` is true, so the first pass starts
immediately. -/
def runJsonSnapshot (numPrint : Rat → List Nat) (rootPath : List Nat) (ts : Rat)
    (flags : Nat) (since : Rat) (root : Entry) (sibs : List Entry) :
    Option (List Nat × Nat × LeResult) :=
  snapLoop numPrint rootPath ts flags since jsonFmtInit root sibs 0

theorem startTreeBurst_live (numPrint : Rat → List Nat) (rootPath : List Nat)
    (ts : Rat) (f : FmtState) (h : f.filter &&& LIVE_FILTERS ≠ 0) :
    startTreeBurst numPrint rootPath ts f =
      ({ f with isRoot := true },
        jsonHeaderTs ++ numPrint ts ++ jsonHeaderRoot ++ rootPath ++
          jsonHeaderUpserted) := by
  rw [startTreeBurst, if_pos h]

theorem startTreeBurst_deleted (numPrint : Rat → List Nat) (rootPath : List Nat)
    (ts : Rat) (f : FmtState) (h : f.filter &&& LIVE_FILTERS = 0) :
    startTreeBurst numPrint rootPath ts f =
      ({ f with isRoot := true }, jsonCommaDeleted) := by
  rw [startTreeBurst, if_neg (by rw [h]; exact fun hc => hc rfl)]

theorem endTreeBurst_live (f : FmtState) (h : f.filter &&& LIVE_FILTERS ≠ 0) :
    endTreeBurst f =
      ({ f with scan := true, filter := SNAPSHOT_FILTER_DELETED,
                needsComma := true }, []) := by
  rw [endTreeBurst, if_pos h]

theorem endTreeBurst_deleted (f : FmtState) (h : f.filter &&& LIVE_FILTERS = 0) :
    endTreeBurst f = ({ f with scan := false, needsComma := false }, [125]) := by
  rw [endTreeBurst, if_neg (by rw [h]; exact fun hc => hc rfl)]

/-- None of the formatter's node-level bursts touches the `filter` or
`scan` request fields (only `endTree` does). -/
theorem beginNodeBurst_filter_scan (numPrint : Rat → List Nat) (since : Rat)
    (d : EntryData) (f : FmtState) :
    ∀ r, beginNodeBurst numPrint since d f = some r →
      r.1.filter = f.filter ∧ r.1.scan = f.scan := by
  intro r h
  unfold beginNodeBurst at h
  repeat' split at h
  all_goals
    first
      | exact Option.noConfusion h
      | (injection h with h2; subst h2; exact ⟨rfl, rfl⟩)

mutual
/-- The walker preserves the formatter's `filter` and `scan` fields. -/
theorem walkNode_filter_scan (numPrint : Rat → List Nat) (flags : Nat)
    (since : Rat) :
    ∀ e f r, walkNode numPrint flags since f e = some r →
      r.1.filter = f.filter ∧ r.1.scan = f.scan
  | .node d cs => by
    intro f r h
    rw [walkNode] at h
    split at h
    · cases hb : beginNodeBurst numPrint since d f with
      | none => simp only [hb] at h; exact Option.noConfusion h
      | some p =>
        obtain ⟨f1, out1⟩ := p
        obtain ⟨hbf, hbs⟩ :=
          beginNodeBurst_filter_scan numPrint since d f (f1, out1) hb
        simp only [hb] at h
        split at h
        · injection h with h2
          subst h2
          exact ⟨hbf, hbs⟩
        · cases hw : walkSiblings numPrint flags since f1 cs with
          | none => simp only [hw] at h; exact Option.noConfusion h
          | some q =>
            obtain ⟨f2, rest⟩ := q
            obtain ⟨hwf, hws⟩ :=
              walkSiblings_filter_scan numPrint flags since cs f1 (f2, rest) hw
            simp only [hw] at h
            injection h with h2
            subst h2
            exact ⟨hwf.trans hbf, hws.trans hbs⟩
    · injection h with h2
      subst h2
      exact ⟨rfl, rfl⟩

theorem walkSiblings_filter_scan (numPrint : Rat → List Nat) (flags : Nat)
    (since : Rat) :
    ∀ l f r, walkSiblings numPrint flags since f l = some r →
      r.1.filter = f.filter ∧ r.1.scan = f.scan
  | [] => by
    intro f r h
    rw [walkSiblings] at h
    injection h with h2
    subst h2
    exact ⟨rfl, rfl⟩
  | e :: rest => by
    intro f r h
    rw [walkSiblings] at h
    split at h
    · cases hw : walkSiblings numPrint flags since f rest with
      | none => simp only [hw] at h; exact Option.noConfusion h
      | some q =>
        obtain ⟨f2, o2⟩ := q
        obtain ⟨hwf, hws⟩ :=
          walkSiblings_filter_scan numPrint flags since rest f (f2, o2) hw
        simp only [hw] at h
        injection h with h2
        subst h2
        exact ⟨hwf, hws⟩
    · cases hn : walkNode numPrint flags since f e with
      | none => simp only [hn] at h; exact Option.noConfusion h
      | some p =>
        obtain ⟨f1, o1⟩ := p
        obtain ⟨hnf, hns⟩ :=
          walkNode_filter_scan numPrint flags since e f (f1, o1) hn
        simp only [hn] at h
        cases hw : walkSiblings numPrint flags since f1 rest with
        | none => simp only [hw] at h; exact Option.noConfusion h
        | some q =>
          obtain ⟨f2, o2⟩ := q
          obtain ⟨hwf, hws⟩ :=
            walkSiblings_filter_scan numPrint flags since rest f1 (f2, o2) hw
          simp only [hw] at h
          injection h with h2
          subst h2
          exact ⟨hwf.trans hnf, hws.trans hns⟩
end

/-- At the pass root (`isRoot` set), the `beginNode` burst emits the
object-opening brace first. -/
theorem beginNodeBurst_root_shape (numPrint : Rat → List Nat) (since : Rat)
    (d : EntryData) (f : FmtState) (hroot : f.isRoot = true) :
    ∀ r, beginNodeBurst numPrint since d f = some r → ∃ k, r.2 = 123 :: k := by
  intro r h
  unfold beginNodeBurst at h
  rw [hroot] at h
  simp only [if_true] at h
  repeat' split at h
  all_goals
    first
      | exact Option.noConfusion h
      | (injection h with h2; subst h2; exact ⟨_, rfl⟩)

/-- A relevant pass root emits a brace-delimited object. -/
theorem walkNode_root_brace (numPrint : Rat → List Nat) (flags : Nat)
    (since : Rat) (f : FmtState) (e : Entry)
    (hrel : resTree_IsRelevant e = true) (hroot : f.isRoot = true) :
    ∀ r, walkNode numPrint flags since f e = some r →
      ∃ m, r.2.1 = 123 :: m ++ [125] := by
  obtain ⟨d, cs⟩ := e
  intro r h
  rw [walkNode] at h
  rw [if_pos (show d.relevant = true from hrel)] at h
  cases hb : beginNodeBurst numPrint since d f with
  | none => simp only [hb] at h; exact Option.noConfusion h
  | some p =>
    obtain ⟨f1, out1⟩ := p
    obtain ⟨k, hk⟩ := beginNodeBurst_root_shape numPrint since d f hroot (f1, out1) hb
    simp only [hb] at h
    split at h
    · injection h with h2
      subst h2
      refine ⟨k, ?_⟩
      simp only at hk
      simp [hk]
    · cases hw : walkSiblings numPrint flags since f1 cs with
      | none => simp only [hw] at h; exact Option.noConfusion h
      | some q =>
        obtain ⟨f2, out2, cs2⟩ := q
        simp only [hw] at h
        injection h with h2
        subst h2
        refine ⟨k ++ out2, ?_⟩
        simp only at hk
        simp [hk, List.append_assoc]

/-- C8 (amended).  A JSON-format snapshot taken at a root with no following
siblings that runs to normal completion performs exactly two passes — a
first pass under the live (Created|Normal) filter that emits the document
header and the upserted tree, then one formatter-requested second pass
under the Deleted filter that emits the deleted tree and the closing brace
— producing output
`{"ts":<T>,"root":"<P>","upserted":<tree1>,"deleted":<tree2>}` where the
two `<tree>`s are the respective passes' walks of the (re-annotated) root
subtree, both brace-delimited objects, and ending with status `Ok`. -/
theorem c8_json_snapshot (numPrint : Rat → List Nat) (rootPath : List Nat)
    (ts : Rat) (flags : Nat) (since : Rat) (root : Entry)
    (out : List Nat) (pc : Nat) (st : LeResult)
    (hrun : runJsonSnapshot numPrint rootPath ts flags since root [] =
      some (out, pc, st)) :
    pc = 2 ∧ st = .ok ∧
    ∃ r1 r2,
      walkNode numPrint flags since jsonFmtInit
        (updateRelevance true LIVE_FILTERS since root) = some r1 ∧
      walkNode numPrint flags since
        ⟨SNAPSHOT_FILTER_DELETED, true, true, true⟩
        (updateRelevance true SNAPSHOT_FILTER_DELETED since r1.2.2) = some r2 ∧
      out = jsonHeaderTs ++ numPrint ts ++ jsonHeaderRoot ++ rootPath ++
        jsonHeaderUpserted ++ r1.2.1 ++ jsonCommaDeleted ++ r2.2.1 ++ [125] ∧
      (∃ m1, r1.2.1 = 123 :: m1 ++ [125]) ∧
      (∃ m2, r2.2.1 = 123 :: m2 ++ [125]) := by
  rw [runJsonSnapshot, snapLoop, runPass] at hrun
  rw [startTreeBurst_live numPrint rootPath ts jsonFmtInit (by decide)] at hrun
  have hival : jsonFmtInit.filter = LIVE_FILTERS := rfl
  dsimp only at hrun
  cases h1 : walkNode numPrint flags since { jsonFmtInit with isRoot := true }
      (updateRelevance true jsonFmtInit.filter since root) with
  | none => rw [h1] at hrun; cases hrun
  | some r1 =>
    have hinit : ({ jsonFmtInit with isRoot := true } : FmtState) = jsonFmtInit := rfl
    rw [h1] at hrun
    obtain ⟨hf1, hs1⟩ := walkNode_filter_scan numPrint flags since _ _ r1 h1
    simp only [walkSiblings] at hrun
    rw [endTreeBurst_live r1.1 (by rw [hf1]; decide)] at hrun
    rw [snapLoop, runPass] at hrun
    rw [startTreeBurst_deleted numPrint rootPath ts _
      (show SNAPSHOT_FILTER_DELETED &&& LIVE_FILTERS = 0 by decide)] at hrun
    dsimp only at hrun
    cases h2 : walkNode numPrint flags since
        ⟨SNAPSHOT_FILTER_DELETED, true, true, true⟩
        (updateRelevance true SNAPSHOT_FILTER_DELETED since r1.2.2) with
    | none =>
      rw [h2] at hrun
      cases hrun
    | some r2 =>
      rw [h2] at hrun
      obtain ⟨hf2, hs2⟩ := walkNode_filter_scan numPrint flags since _ _ r2 h2
      simp only [walkSiblings] at hrun
      rw [endTreeBurst_deleted r2.1 (by rw [hf2]; decide)] at hrun
      dsimp only at hrun
      injection hrun with hout
      injection hout with ho hrest
      injection hrest with hpc hst
      obtain ⟨b1, hb1⟩ := walkNode_root_brace numPrint flags since jsonFmtInit
        (updateRelevance true LIVE_FILTERS since root)
        (updateRelevance_root_flag LIVE_FILTERS since root) rfl r1 h1
      obtain ⟨b2, hb2⟩ := walkNode_root_brace numPrint flags since
        ⟨SNAPSHOT_FILTER_DELETED, true, true, true⟩
        (updateRelevance true SNAPSHOT_FILTER_DELETED since r1.2.2)
        (updateRelevance_root_flag SNAPSHOT_FILTER_DELETED since r1.2.2) rfl r2 h2
      refine ⟨by omega, hst.symm, r1, r2, h1, h2, ?_, ⟨b1, hb1⟩, ⟨b2, hb2⟩⟩
      rw [← ho]
      simp

/-- A fixed rendering for the timestamp printer in the concrete snapshot
runs below: every number prints as the single ASCII digit `0`. -/
def c8NumPrint : Rat → List Nat := fun _ => [48]

/-- A minimal pass root: a namespace leaf. -/
def c8RootData : EntryData :=
  { name := [47], entryType := .nspace, isNew := false, isDeleted := false,
    isMandatory := false, lastModified := 0, relevant := false,
    dataType := .trigger, currentValue := none }

def c8Root : Entry := .node c8RootData []

/-- The pass root after relevance annotation (the pass root is always
relevant). -/
def c8RootR : Entry := .node { c8RootData with relevant := true } []

/-- A following sibling of the pass root, carrying a stale `relevant` flag
left over from an earlier snapshot. -/
def c8SibData : EntryData :=
  { c8RootData with name := [83], relevant := true }

def c8Sib : Entry := .node c8SibData []

/-- `{"ts":0,"root":"/","upserted":{},"deleted":{}}`. -/
def c8Out : List Nat :=
  [123, 34, 116, 115, 34, 58, 48, 44, 34, 114, 111, 111, 116, 34, 58, 34, 47,
   34, 44, 34, 117, 112, 115, 101, 114, 116, 101, 100, 34, 58, 123, 125, 44,
   34, 100, 101, 108, 101, 116, 101, 100, 34, 58, 123, 125, 125]

/-- `{"ts":0,"root":"/","upserted":{},"S":{},"deleted":{},"S":{}}` — the
stale-relevant sibling leaks into both passes. -/
def c8LeakOut : List Nat :=
  [123, 34, 116, 115, 34, 58, 48, 44, 34, 114, 111, 111, 116, 34, 58, 34, 47,
   34, 44, 34, 117, 112, 115, 101, 114, 116, 101, 100, 34, 58, 123, 125, 44,
   34, 83, 34, 58, 123, 125, 44, 34, 100, 101, 108, 101, 116, 101, 100, 34,
   58, 123, 125, 44, 34, 83, 34, 58, 123, 125, 125]

theorem c8_updRel_live :
    updateRelevance true LIVE_FILTERS 0 c8Root = c8RootR := by
  simp [updateRelevance, updateRelevanceList, c8Root, c8RootData, c8RootR]

theorem c8_updRel_del :
    updateRelevance true SNAPSHOT_FILTER_DELETED 0 c8RootR = c8RootR := by
  simp [updateRelevance, updateRelevanceList, c8RootR, c8RootData]

theorem c8_walk_live :
    walkNode c8NumPrint 0 0 jsonFmtInit c8RootR =
      some (⟨5, true, true, false⟩, [123, 125], c8RootR) := by
  simp [walkNode, walkSiblings, beginNodeBurst, jsonFmtInit, c8RootR,
    c8RootData, LIVE_FILTERS, SNAPSHOT_FILTER_CREATED, SNAPSHOT_FILTER_NORMAL]

theorem c8_walk_del :
    walkNode c8NumPrint 0 0 (⟨2, true, true, true⟩ : FmtState)
      c8RootR = some (⟨2, true, true, false⟩, [123, 125], c8RootR) := by
  simp [walkNode, walkSiblings, beginNodeBurst, c8RootR, c8RootData,
    SNAPSHOT_FILTER_DELETED]

theorem c8_walk_sib (fl : Nat) :
    walkNode c8NumPrint 0 0 (⟨fl, true, true, false⟩ : FmtState) c8Sib =
      some (⟨fl, true, true, false⟩, [44, 34, 83, 34, 58, 123, 125], c8Sib) := by
  simp [walkNode, walkSiblings, beginNodeBurst, c8Sib, c8SibData, c8RootData]

theorem c8_pass1 (sibs : List Entry) (outS : List Nat) (sibs2 : List Entry)
    (hs : walkSiblings c8NumPrint 0 0 (⟨5, true, true, false⟩ : FmtState) sibs =
      some (⟨5, true, true, false⟩, outS, sibs2)) :
    runPass c8NumPrint [47] 0 0 0 jsonFmtInit c8Root sibs =
      some (⟨2, true, true, false⟩,
        jsonHeaderTs ++ [48] ++ jsonHeaderRoot ++ [47] ++ jsonHeaderUpserted ++
          [123, 125] ++ outS,
        c8RootR, sibs2) := by
  rw [runPass]
  have h1 : updateRelevance true jsonFmtInit.filter 0 c8Root = c8RootR :=
    c8_updRel_live
  rw [startTreeBurst_live c8NumPrint [47] 0 jsonFmtInit (by decide)]
  dsimp only
  rw [h1]
  have hinit : ({ jsonFmtInit with isRoot := true } : FmtState) = jsonFmtInit := rfl
  rw [hinit, c8_walk_live]
  dsimp only
  rw [hs]
  dsimp only
  rw [endTreeBurst_live ⟨5, true, true, false⟩ (by decide)]
  simp [c8NumPrint, SNAPSHOT_FILTER_DELETED]

theorem c8_pass2 (sibs : List Entry) (outS : List Nat) (sibs2 : List Entry)
    (hs : walkSiblings c8NumPrint 0 0 (⟨2, true, true, false⟩ : FmtState) sibs =
      some (⟨2, true, true, false⟩, outS, sibs2)) :
    runPass c8NumPrint [47] 0 0 0 (⟨2, true, true, false⟩ : FmtState) c8RootR sibs =
      some (⟨2, false, false, false⟩,
        jsonCommaDeleted ++ [123, 125] ++ outS ++ [125], c8RootR, sibs2) := by
  rw [runPass]
  have h1 : updateRelevance true (FmtState.mk 2 true true false).filter 0 c8RootR =
      c8RootR := c8_updRel_del
  rw [startTreeBurst_deleted c8NumPrint [47] 0 _ (by decide)]
  dsimp only
  rw [h1, c8_walk_del]
  dsimp only
  rw [hs]
  dsimp only
  rw [endTreeBurst_deleted ⟨2, true, true, false⟩ (by decide)]

theorem c8_run (sibs : List Entry) (outS1 outS2 : List Nat)
    (sibs1 sibs2 : List Entry)
    (hs1 : walkSiblings c8NumPrint 0 0 (⟨5, true, true, false⟩ : FmtState) sibs =
      some (⟨5, true, true, false⟩, outS1, sibs1))
    (hs2 : walkSiblings c8NumPrint 0 0 (⟨2, true, true, false⟩ : FmtState) sibs1 =
      some (⟨2, true, true, false⟩, outS2, sibs2)) :
    runJsonSnapshot c8NumPrint [47] 0 0 0 c8Root sibs =
      some ((jsonHeaderTs ++ [48] ++ jsonHeaderRoot ++ [47] ++
        jsonHeaderUpserted ++ [123, 125] ++ outS1) ++
        (jsonCommaDeleted ++ [123, 125] ++ outS2 ++ [125]), 2, .ok) := by
  rw [runJsonSnapshot, snapLoop, c8_pass1 sibs outS1 sibs1 hs1]
  dsimp only
  rw [if_pos (by exact ⟨rfl, by decide⟩)]
  rw [snapLoop, c8_pass2 sibs1 outS2 sibs2 hs2]
  dsimp only
  rw [if_neg (by simp), if_neg (by decide)]

theorem c8_walkSibs (fl : Nat) :
    walkSiblings c8NumPrint 0 0 (⟨fl, true, true, false⟩ : FmtState) [c8Sib] =
      some (⟨fl, true, true, false⟩, [44, 34, 83, 34, 58, 123, 125], [c8Sib]) := by
  have hc : ¬ ((⟨fl, true, true, false⟩ : FmtState).filter &&&
      SNAPSHOT_FILTER_DELETED = 0 ∧ resTree_IsDeleted c8Sib = true) := by
    intro h
    exact absurd h.2 (by decide)
  simp only [walkSiblings, hc, if_false]
  rw [c8_walk_sib fl]
  simp only [walkSiblings]
  simp [QUERY_SNAPSHOT_FLAG_FLUSH_DELETIONS, resTree_IsDeleted]

/-- C8 witness: `c8_json_snapshot` applied to a snapshot of a namespace
leaf at path `/` with timestamp 0: two passes, output
`{"ts":0,"root":"/","upserted":{},"deleted":{}}`, status Ok. -/
theorem c8_json_snapshot_witness :
    (runJsonSnapshot c8NumPrint [47] 0 0 0 c8Root [] =
      some (c8Out, 2, .ok)) ∧
    (2 = 2 ∧ (LeResult.ok = .ok) ∧
      ∃ r1 r2,
        walkNode c8NumPrint 0 0 jsonFmtInit
          (updateRelevance true LIVE_FILTERS 0 c8Root) = some r1 ∧
        walkNode c8NumPrint 0 0 ⟨SNAPSHOT_FILTER_DELETED, true, true, true⟩
          (updateRelevance true SNAPSHOT_FILTER_DELETED 0 r1.2.2) = some r2 ∧
        c8Out = jsonHeaderTs ++ c8NumPrint 0 ++ jsonHeaderRoot ++ [47] ++
          jsonHeaderUpserted ++ r1.2.1 ++ jsonCommaDeleted ++ r2.2.1 ++ [125] ∧
        (∃ m1, r1.2.1 = 123 :: m1 ++ [125]) ∧
        (∃ m2, r2.2.1 = 123 :: m2 ++ [125])) := by
  have h0 : walkSiblings c8NumPrint 0 0 (⟨5, true, true, false⟩ : FmtState) [] =
      some (⟨5, true, true, false⟩, [], []) := by
    simp only [walkSiblings]
  have h0d : walkSiblings c8NumPrint 0 0 (⟨2, true, true, false⟩ : FmtState) [] =
      some (⟨2, true, true, false⟩, [], []) := by
    simp only [walkSiblings]
  have hh : runJsonSnapshot c8NumPrint [47] 0 0 0 c8Root [] =
      some (c8Out, 2, .ok) := by
    rw [c8_run [] [] [] [] [] h0 h0d]
    decide
  exact ⟨hh, c8_json_snapshot c8NumPrint [47] 0 0 0 c8Root c8Out 2 .ok hh⟩

/-- C8 counterexample to the unrestricted claim: when the pass root has a
following sibling whose stale `relevant` flag survived from an earlier
snapshot (the pass only re-annotates the root's subtree), the `NodeSibling`
step — which has no pass-root guard — walks that sibling in both passes, so
the run still completes with two passes and Ok, but the output is *not*
`{"ts":<T>,"root":"<P>","upserted":<tree>,"deleted":<tree>}` built from the
two walks of the snapshot subtree: the sibling's `,"S":{}` leaks into both
sections. -/
theorem c8_counterexample :
    runJsonSnapshot c8NumPrint [47] 0 0 0 c8Root [c8Sib] =
      some (c8LeakOut, 2, .ok) ∧
    walkNode c8NumPrint 0 0 jsonFmtInit
      (updateRelevance true LIVE_FILTERS 0 c8Root) =
      some (⟨5, true, true, false⟩, [123, 125], c8RootR) ∧
    walkNode c8NumPrint 0 0 ⟨SNAPSHOT_FILTER_DELETED, true, true, true⟩
      (updateRelevance true SNAPSHOT_FILTER_DELETED 0 c8RootR) =
      some (⟨2, true, true, false⟩, [123, 125], c8RootR) ∧
    c8LeakOut ≠ jsonHeaderTs ++ c8NumPrint 0 ++ jsonHeaderRoot ++ [47] ++
      jsonHeaderUpserted ++ [123, 125] ++ jsonCommaDeleted ++ [123, 125] ++
      [125] := by
  refine ⟨?_, ?_, ?_, ?_⟩
  · rw [c8_run [c8Sib] _ _ _ _ (c8_walkSibs 5) (c8_walkSibs 2)]
    decide
  · rw [c8_updRel_live]
    exact c8_walk_live
  · rw [c8_updRel_del]
    exact c8_walk_del
  · decide

/-- Rebuilding an entry with a given child list (the node data is kept). -/
def entryWithChildren : Entry → List Entry → Entry
  | .node d _, cs => .node d cs

/-- C10.  The walker treats a deleted entry as a leaf: `NodeBegin` skips
the child lookup when the deleted flag is set, so the formatter states and
the emitted bytes are exactly those of the same entry with no children at
all, and the children (the subtree beneath the deleted entry) are returned
untouched — never visited, never emitted, never mutated. -/
theorem c10_deleted_leaf (numPrint : Rat → List Nat) (flags : Nat)
    (since : Rat) (f : FmtState) (d : EntryData) (cs : List Entry)
    (hd : d.isDeleted = true) :
    walkNode numPrint flags since f (.node d cs) =
      Option.map (fun r => (r.1, r.2.1, entryWithChildren r.2.2 cs))
        (walkNode numPrint flags since f (.node d [])) := by
  simp only [walkNode]
  cases hr : d.relevant with
  | false => simp [entryWithChildren]
  | true =>
    simp only
    cases hb : beginNodeBurst numPrint since d f with
    | none => simp
    | some p =>
      obtain ⟨f1, out1⟩ := p
      simp [hd, entryWithChildren, walkSiblings]

/-- C10 witness: `c10_deleted_leaf` applied to a relevant deleted
namespace entry with one child. -/
theorem c10_deleted_leaf_witness :
    ((⟨[100], .nspace, false, true, false, 0, true, .trigger, none⟩ :
        EntryData).isDeleted = true) ∧
    (walkNode (fun _ => [48]) 0 0 jsonFmtInit
        (.node ⟨[100], .nspace, false, true, false, 0, true, .trigger, none⟩
          [.node ⟨[99], .nspace, false, false, false, 0, true, .trigger, none⟩
            []]) =
      Option.map (fun r => (r.1, r.2.1, entryWithChildren r.2.2
          [.node ⟨[99], .nspace, false, false, false, 0, true, .trigger, none⟩
            []]))
        (walkNode (fun _ => [48]) 0 0 jsonFmtInit
          (.node ⟨[100], .nspace, false, true, false, 0, true, .trigger, none⟩
            []))) :=
  ⟨rfl, c10_deleted_leaf (fun _ => [48]) 0 0 jsonFmtInit
    ⟨[100], .nspace, false, true, false, 0, true, .trigger, none⟩
    [.node ⟨[99], .nspace, false, false, false, 0, true, .trigger, none⟩ []]
    rfl⟩

end DHub
